import Mathlib

/-!
# rgbhex: hex colour code <-> RGB triple

A shallow embedding of `rgbhex/rgbhex.go` and of the parts of the Go standard
library it calls (`strings.Split`, `strconv.ParseInt`, `fmt` integer verbs, the
`flag` package's handling of the two flags), followed by theorems about them.

Conventions.
* A Go `string` is modelled as a list of characters, each ASCII character
  standing for its byte.  The embedded functions only ever tell ASCII bytes
  apart; a character outside ASCII is treated as every byte of its UTF-8
  encoding is treated by the Go code: it is never a comma, a sign, a digit or
  an underscore.
* `int64` values are integers; where Go arithmetic can wrap, the wrap is
  written out (`toInt64`, `% 2 ^ 64`).
-/

namespace RgbHex

/-- A Go string. -/
abbrev GoString := List Char

/-! ## strings.Split -/

/-- Go `strings.Count(s, sep)` for a one-byte separator. -/
def Count (sep : Char) : GoString → Nat
  | [] => 0
  | c :: cs => if c = sep then Count sep cs + 1 else Count sep cs

/-- Go `strings.Index(s, sep)` for a one-byte separator; `none` stands for `-1`. -/
def Index (sep : Char) : GoString → Option Nat
  | [] => none
  | c :: cs => if c = sep then some 0 else (Index sep cs).map (· + 1)

/-- The loop of `strings.genSplit` (with `sepSave = 0`, `len(sep) = 1`): `k` is
the number of cuts still allowed (`n - 1 - i`); the result is `a[i:]`. -/
def genSplitLoop (sep : Char) : Nat → GoString → List GoString
  | 0, s => [s]
  | k + 1, s =>
    match Index sep s with
    | none => [s]
    | some m => s.take m :: genSplitLoop sep k (s.drop (m + 1))

/-- Go `strings.Split(s, sep)` for a one-byte separator:
`genSplit(s, sep, 0, -1)`, where `n = Count(s, sep) + 1` (capped at
`len(s) + 1`) and the loop runs while `i < n - 1`. -/
def Split (s : GoString) (sep : Char) : List GoString :=
  let n := Count sep s + 1
  let n := if n > s.length + 1 then s.length + 1 else n
  genSplitLoop sep (n - 1) s

/-! ## strconv.ParseUint / strconv.ParseInt -/

/-- The sentinel errors of `strconv` (`ErrSyntax`, `ErrRange`) and the two
argument errors (`invalid base n`, `invalid bit size n`). -/
inductive NumErr where
  | ErrSyntax
  | ErrRange
  | ErrBase (base : Nat)
  | ErrBitSize (bitSize : Nat)
deriving DecidableEq, Repr

/-- Go `strconv.NumError`: the failing function, the input, the reason. -/
structure NumError where
  Func : String
  Num : GoString
  Err : NumErr
deriving DecidableEq, Repr

/-- Go `strconv.lower(c)`: `c | ('x' - 'X')`. -/
def lower (c : Char) : Nat := c.toNat ||| 32

/-- The digit value `ParseUint` assigns to a byte (before the comparison with
the base); `none` for a byte that is neither `0-9` nor a letter. -/
def digitVal (c : Char) : Option Nat :=
  if 48 ≤ c.toNat ∧ c.toNat ≤ 57 then some (c.toNat - 48)
  else if 97 ≤ lower c ∧ lower c ≤ 122 then some (lower c - 97 + 10)
  else none

/-- The digit loop of `ParseUint`.  It returns `.ok (n, underscores)` when the
loop runs to the end, and `.error (value, reason)` for an early `return`. -/
def parseLoop (base : Nat) (base0 : Bool) (cutoff maxVal : Nat) :
    GoString → Nat → Bool → Except (Nat × NumErr) (Nat × Bool)
  | [], n, underscores => .ok (n, underscores)
  | c :: cs, n, underscores =>
    if c = '_' ∧ base0 = true then parseLoop base base0 cutoff maxVal cs n true
    else
      match digitVal c with
      | none => .error (0, .ErrSyntax)
      | some d =>
        if d ≥ base % 256 then .error (0, .ErrSyntax)
        else if n ≥ cutoff then .error (maxVal, .ErrRange)
        else
          let n' := n * base % 2 ^ 64
          let n1 := (n' + d) % 2 ^ 64
          if n1 < n' ∨ n1 > maxVal then .error (maxVal, .ErrRange)
          else parseLoop base base0 cutoff maxVal cs n1 underscores

/-- The loop of `strconv.underscoreOK` over the number proper; `saw` is the
last character class seen (`^`, `0`, `_` or `!`).  The result is the value
`underscoreOK` returns. -/
def underscoreLoop (hex : Bool) : GoString → Char → Bool
  | [], saw => saw ≠ '_'
  | c :: cs, saw =>
    if (48 ≤ c.toNat ∧ c.toNat ≤ 57) ∨ (hex = true ∧ 97 ≤ lower c ∧ lower c ≤ 102) then
      underscoreLoop hex cs '0'
    else if c = '_' then
      if saw ≠ '0' then false else underscoreLoop hex cs '_'
    else if saw = '_' then false
    else underscoreLoop hex cs '!'

/-- The byte `s[i]` of a string (the program reads it only where `i < len(s)`). -/
def byteAt (s : GoString) (i : Nat) : Char := s.getD i (Char.ofNat 0)

/-- Go `strconv.underscoreOK(s)`: underscores only between digits or between a
base prefix and a digit. -/
def underscoreOK (s : GoString) : Bool :=
  -- optional sign
  let s := if s.length ≥ 1 ∧ (byteAt s 0 = '-' ∨ byteAt s 0 = '+') then s.drop 1 else s
  -- optional base prefix
  if s.length ≥ 2 ∧ byteAt s 0 = '0' ∧
      (lower (byteAt s 1) = 98 ∨ lower (byteAt s 1) = 111 ∨ lower (byteAt s 1) = 120) then
    underscoreLoop (lower (byteAt s 1) = 120) (s.drop 2) '0'
  else underscoreLoop false s '^'

/-- Go `strconv.IntSize` on the 64-bit platforms. -/
def IntSize : Nat := 64

/-- The `switch` on the base at the head of `ParseUint`: the base to use and
the digits to read; `none` when the base is invalid.  For `base = 0` the base
is taken from the prefix of the string (`0b`, `0o`, `0x`, a leading `0` for
octal, decimal otherwise). -/
def selectBase (s : GoString) (base : Nat) : Option (Nat × GoString) :=
  if 2 ≤ base ∧ base ≤ 36 then some (base, s)
  else if base = 0 then
    if byteAt s 0 = '0' then
      if s.length ≥ 3 ∧ lower (byteAt s 1) = 98 then some (2, s.drop 2)
      else if s.length ≥ 3 ∧ lower (byteAt s 1) = 111 then some (8, s.drop 2)
      else if s.length ≥ 3 ∧ lower (byteAt s 1) = 120 then some (16, s.drop 2)
      else some (8, s.drop 1)
    else some (10, s)
  else none

/-- Go `strconv.ParseUint(s, base, bitSize)`: the value and the error returned
(`none` for `nil`).  `base` and `bitSize` are naturals: the program passes
only the constants 0, 16, 32 and 64. -/
def ParseUint (s : GoString) (base bitSize : Nat) : Nat × Option NumError :=
  let fnParseUint := "ParseUint"
  if s = [] then (0, some ⟨fnParseUint, s, .ErrSyntax⟩)
  else
    let base0 : Bool := base = 0
    let s0 := s
    match selectBase s base with
    | none => (0, some ⟨fnParseUint, s0, .ErrBase base⟩)
    | some (base, s) =>
      if bitSize > 64 then (0, some ⟨fnParseUint, s0, .ErrBitSize bitSize⟩)
      else
        let bitSize := if bitSize = 0 then IntSize else bitSize
        -- cutoff is the smallest number such that cutoff*base > maxUint64
        let cutoff := (2 ^ 64 - 1) / base + 1
        let maxVal := (2 ^ bitSize % 2 ^ 64 + 2 ^ 64 - 1) % 2 ^ 64
        match parseLoop base base0 cutoff maxVal s 0 false with
        | .error (v, e) => (v, some ⟨fnParseUint, s0, e⟩)
        | .ok (n, underscores) =>
          if underscores = true ∧ underscoreOK s0 = false then
            (0, some ⟨fnParseUint, s0, .ErrSyntax⟩)
          else (n, none)

/-- Conversion `int64(x)` of an integer: wrap into `[-2^63, 2^63)`. -/
def toInt64 (x : Int) : Int := (x + 2 ^ 63) % 2 ^ 64 - 2 ^ 63

/-- The end of `strconv.ParseInt`: the range check against
`cutoff = 1 << (bitSize - 1)` and the application of the sign. -/
def parseIntFinish (s0 : GoString) (neg : Bool) (un bitSize : Nat) : Int × Option NumError :=
  let bitSize := if bitSize = 0 then IntSize else bitSize
  let cutoff : Nat := 2 ^ (bitSize - 1) % 2 ^ 64
  if neg = false ∧ un ≥ cutoff then
    (toInt64 ((cutoff - 1 : Nat) : Int), some ⟨"ParseInt", s0, .ErrRange⟩)
  else if neg = true ∧ un > cutoff then
    (toInt64 (-toInt64 (cutoff : Int)), some ⟨"ParseInt", s0, .ErrRange⟩)
  else
    let n := toInt64 (un : Int)
    (if neg = true then toInt64 (-n) else n, none)

/-- Go `strconv.ParseInt(s, base, bitSize)`: the value and the error returned
(`none` for `nil`). -/
def ParseInt (s : GoString) (base bitSize : Nat) : Int × Option NumError :=
  let fnParseInt := "ParseInt"
  match s with
  | [] => (0, some ⟨fnParseInt, s, .ErrSyntax⟩)
  | c :: cs =>
    let s0 := s
    -- pick off the leading sign
    let neg : Bool := c = '-'
    let s := if c = '+' then cs else if c = '-' then cs else s
    -- convert unsigned and check the range
    match ParseUint s base bitSize with
    | (un, some e) =>
      if e.Err ≠ .ErrRange then (0, some ⟨fnParseInt, s0, e.Err⟩)
      else parseIntFinish s0 neg un bitSize
    | (un, none) => parseIntFinish s0 neg un bitSize

/-! ## The program: types and codec -/

/-- An RGB contains the red, green and blue values for a color (`int64` each). -/
structure RGB where
  red : Int
  green : Int
  blue : Int
deriving DecidableEq, Repr

/-- Go `type rgbval RGB`. -/
abbrev rgbval := RGB

/-- Method `(*rgbval).Set`: the receiver after the call and the error returned
(`none` for `nil`).  The errors of the three `ParseInt` calls are discarded;
the values they return are stored. -/
def rgbval.Set (recv : rgbval) (value : GoString) : rgbval × Option String :=
  let rgbSlice := Split value ','
  if rgbSlice.length ≠ 3 then
    (recv, some "Invalid value for flag rgb. Flag value should be in r,g,b format")
  else
    let recv := { recv with red := (ParseInt (rgbSlice.getD 0 []) 0 64).1 }
    let recv := { recv with green := (ParseInt (rgbSlice.getD 1 []) 0 64).1 }
    let recv := { recv with blue := (ParseInt (rgbSlice.getD 2 []) 0 64).1 }
    (recv, none)

/-- Function `HexToRGB`: shifts and masks on an `int64` (the shift is
arithmetic, the mask is a bitwise and). -/
def HexToRGB (hexVal : Int) : RGB :=
  let red := hexVal >>> (16 : Nat)
  let green := Int.land (hexVal >>> (8 : Nat)) 0xFF
  let blue := Int.land hexVal 0xFF
  ⟨red, green, blue⟩

/-! ## fmt: the integer verbs `%d` and `%02x` -/

/-- Go `fmt.ldigits`. -/
def ldigits : GoString := "0123456789abcdefx".toList

/-- The digit loop of `fmt.(*fmt).fmtInteger`, writing right to left in front
of `buf`: `for u >= base { buf[i] = digits[u % base]; u /= base }` and then
`buf[i] = digits[u]`.  (Go spells the loop out per base: `u & 0xF`, `u >>= 4`
for 16 and `'0' + u - next*10` for 10.)  The first argument bounds the number of
iterations; a `uint64` needs at most 64. -/
def fmtDigits (base : Nat) : Nat → Nat → GoString → GoString
  | 0, u, buf => ldigits.getD u '?' :: buf
  | fuel + 1, u, buf =>
    if u ≥ base then fmtDigits base fuel (u / base) (ldigits.getD (u % base) '?' :: buf)
    else ldigits.getD u '?' :: buf

/-- The part of `fmt.(*fmt).fmtInteger` after the sign has been taken off:
`u` is the magnitude to print, `negative` tells whether a `-` goes in front. -/
def fmtMagnitude (negative : Bool) (u : Nat) (base : Nat) (wid : Option Nat) (zero : Bool) :
    GoString :=
  -- `%03d`-style zero padding is handled as a precision, leaving room for the sign
  let prec : Nat :=
    match wid with
    | some w => if zero = true then (if negative = true then w - 1 else w) else 0
    | none => 0
  let digits := fmtDigits base 64 u []
  let digits := List.replicate (prec - digits.length) '0' ++ digits
  let buf := if negative = true then '-' :: digits else digits
  -- `f.pad` with the zero flag switched off: blanks on the left up to the width
  match wid with
  | some w => List.replicate (w - buf.length) ' ' ++ buf
  | none => buf

/-- Go `fmt.(*fmt).fmtInteger` for a signed `int64` operand with verb `d`
(`base = 10`) or `x` (`base = 16`), with an optional width and the `0` flag; no
precision, no other flag.  The operand arrives as `uint64(v)`;
`negative := int64(u) < 0` and then `u = -u`. -/
def fmtInteger (v : Int) (base : Nat) (wid : Option Nat) (zero : Bool) : GoString :=
  let u : Nat := (v % 2 ^ 64).toNat
  let negative : Bool := toInt64 (u : Int) < 0
  let u := if negative = true then (2 ^ 64 - u) % 2 ^ 64 else u
  fmtMagnitude negative u base wid zero

/-- Method `(*RGB).String`: `fmt.Sprintf("RGB\x7bR:%d, G:%d, B:%d\x7d", ...)`. -/
def RGB.String (rgb : RGB) : GoString :=
  "RGB\x7bR:".toList ++ fmtInteger rgb.red 10 none false ++ ", G:".toList ++
    fmtInteger rgb.green 10 none false ++ ", B:".toList ++
    fmtInteger rgb.blue 10 none false ++ "\x7d".toList

/-- Function `RGBToHex`: the three `fmt.Sprintf("%02x", ...)` strings, concatenated. -/
def RGBToHex (rgbVal : rgbval) : GoString :=
  let buffer : GoString := []
  let buffer := buffer ++ fmtInteger rgbVal.red 16 (some 2) true
  let buffer := buffer ++ fmtInteger rgbVal.green 16 (some 2) true
  let buffer := buffer ++ fmtInteger rgbVal.blue 16 (some 2) true
  buffer

/-! ## The driver -/

/-- What one run of the program reports. -/
inductive Printed where
  /-- Bytes written to standard output. -/
  | text (s : GoString)
  /-- The result of `fmt.Println(err)` for a `*strconv.NumError`: its message and a newline. -/
  | numError (e : NumError)
  /-- The report of the `flag` package (on standard error) when a flag's `Set`
  returns the error `msg`: the message and the usage. -/
  | flagFailure (value : GoString) (msg : String)
deriving DecidableEq, Repr

/-- Go `fmt.Println(s)` for one string operand. -/
def Println (s : GoString) : Printed := .text (s ++ ['\n'])

/-- The zero value of the package variable `rgbflag`. -/
def rgbflagZero : rgbval := ⟨0, 0, 0⟩

/-- The usage line of `main`. -/
def usage : GoString := "Usage: rgbhex [-hex=ABCDEF | -rgb=123,234,100]".toList

/-- Function `main`, as a function of the value given to `-hex` and the value
given to `-rgb` (`none` when the flag is not on the command line), to what is
reported and the exit status.

`flag.Parse` stores the `-hex` value in `*hexPtr` (default `""`), calls
`rgbflag.Set` on the `-rgb` value and, the command line being parsed with
`flag.ExitOnError`, exits with status 2 when `Set` returns an error.
`flag.NFlag()` is the number of flags that were set. -/
def main (hexArg rgbArg : Option GoString) : Printed × Nat :=
  -- flag.Parse()
  let hexPtr : GoString := hexArg.getD []
  let parsed : rgbval × Option (GoString × String) :=
    match rgbArg with
    | none => (rgbflagZero, none)
    | some value =>
      match rgbval.Set rgbflagZero value with
      | (r, none) => (r, none)
      | (r, some msg) => (r, some (value, msg))
  match parsed with
  | (_, some (value, msg)) => (.flagFailure value msg, 2)
  | (rgbflag, none) =>
    let NFlag : Nat := (if hexArg.isSome then 1 else 0) + (if rgbArg.isSome then 1 else 0)
    if NFlag = 0 ∨ NFlag = 2 then (Println usage, 1)
    else if hexPtr ≠ [] then
      match ParseInt hexPtr 16 32 with
      | (_, some err) => (.numError err, 1)
      | (hexVal, none) => (Println (HexToRGB hexVal).String, 0)
    else (Println (RGBToHex rgbflag), 0)

/-! ## Reference notions used in the statements

These two follow the words of the specification, not the code. -/

/-- The lowercase hexadecimal numeral of `n`, padded on the left with zeros to
`width` characters. -/
def hexPadded (width n : Nat) : GoString := List.leftpad width '0' (Nat.toDigits 16 n)

/-- The canonical decimal numeral of an integer: its decimal digits, most
significant first and without leading zeros, preceded by `-` when negative. -/
def decimalNumeral : Int → GoString
  | .ofNat m => Nat.toDigits 10 m
  | .negSucc m => '-' :: Nat.toDigits 10 (m + 1)

/-- The value of a hexadecimal digit, written in either case; 16 for every
other character. -/
def hexDigitValue (c : Char) : Nat :=
  min ("0123456789abcdef".toList.indexOf c) ("0123456789ABCDEF".toList.indexOf c)

/-- A hexadecimal numeral: a non-empty run of hexadecimal digits, in either
case, without sign or prefix. -/
def isHexNumeral (s : GoString) : Prop := s ≠ [] ∧ ∀ c ∈ s, hexDigitValue c < 16

/-- The number a hexadecimal numeral denotes. -/
def hexNumeralValue (s : GoString) : Nat := s.foldl (fun a c => a * 16 + hexDigitValue c) 0


/-! ## Facts about `strings.Split` -/

theorem Count_eq_count (sep : Char) (s : GoString) : Count sep s = s.count sep := by
  induction s with
  | nil => rfl
  | cons c cs ih =>
    by_cases h : c = sep
    · subst h; simp [Count, ih]
    · have h2 : (c == sep) = false := by simpa using h
      simp [Count, ih, h, List.count_cons, h2]

theorem Count_le_length (sep : Char) (s : GoString) : Count sep s ≤ s.length := by
  rw [Count_eq_count]; exact List.count_le_length _ _

theorem Index_none_of_Count (sep : Char) (s : GoString) (h : Count sep s = 0) :
    Index sep s = none := by
  induction s with
  | nil => rfl
  | cons c cs ih =>
    by_cases hc : c = sep
    · simp [Count, hc] at h
    · simp only [Count, hc, if_false] at h
      simp [Index, hc, ih h]

theorem Index_some_of_Count (sep : Char) (s : GoString) (k : Nat) (h : Count sep s = k + 1) :
    ∃ m, Index sep s = some m ∧ Count sep (s.drop (m + 1)) = k := by
  induction s with
  | nil => simp [Count] at h
  | cons c cs ih =>
    by_cases hc : c = sep
    · refine ⟨0, by simp [Index, hc], ?_⟩
      simp only [Count, hc, if_true] at h
      simpa using Nat.succ.inj h
    · simp only [Count, hc, if_false] at h
      obtain ⟨m, hm, hk⟩ := ih h
      exact ⟨m + 1, by simp [Index, hc, hm], by simpa using hk⟩

theorem genSplitLoop_length (sep : Char) (k : Nat) :
    ∀ s : GoString, Count sep s = k → (genSplitLoop sep k s).length = k + 1 := by
  induction k with
  | zero => intro s _; rfl
  | succ k ih =>
    intro s hs
    obtain ⟨m, hm, hk⟩ := Index_some_of_Count sep s k hs
    simp [genSplitLoop, hm, ih _ hk]

/-- `Split` cuts at every separator: the loop bound is the number of separators. -/
theorem Split_eq (s : GoString) (sep : Char) : Split s sep = genSplitLoop sep (Count sep s) s := by
  have h := Count_le_length sep s
  simp only [Split]
  rw [if_neg (by omega)]
  rfl

theorem Split_length (s : GoString) (sep : Char) : (Split s sep).length = s.count sep + 1 := by
  rw [Split_eq, genSplitLoop_length sep _ s rfl, Count_eq_count]

theorem Count_append_sep (sep : Char) (a t : GoString) (ha : sep ∉ a) :
    Count sep (a ++ sep :: t) = Count sep t + 1 := by
  induction a with
  | nil => simp [Count]
  | cons c cs ih =>
    have hc : c ≠ sep := fun h => ha (by simp [h])
    have hcs : sep ∉ cs := fun h => ha (by simp [h])
    simp [Count, hc, ih hcs]

theorem Index_append_sep (sep : Char) (a t : GoString) (ha : sep ∉ a) :
    Index sep (a ++ sep :: t) = some a.length := by
  induction a with
  | nil => simp [Index]
  | cons c cs ih =>
    have hc : c ≠ sep := fun h => ha (by simp [h])
    have hcs : sep ∉ cs := fun h => ha (by simp [h])
    simp [Index, hc, ih hcs]

theorem Count_of_not_mem (sep : Char) (a : GoString) (ha : sep ∉ a) : Count sep a = 0 := by
  rw [Count_eq_count]; exact List.count_eq_zero.mpr ha

/-- A string without separator is its own single field. -/
theorem Split_of_not_mem (sep : Char) (a : GoString) (ha : sep ∉ a) : Split a sep = [a] := by
  rw [Split_eq, Count_of_not_mem sep a ha]; rfl

/-- The first field ends at the first separator. -/
theorem Split_append_sep (sep : Char) (a t : GoString) (ha : sep ∉ a) :
    Split (a ++ sep :: t) sep = a :: Split t sep := by
  rw [Split_eq, Split_eq, Count_append_sep sep a t ha]
  simp [genSplitLoop, Index_append_sep sep a t ha]

/-! ## Facts about the shifts and masks of `HexToRGB` -/

theorem ldiff_255 (n : Nat) : Nat.ldiff 255 n = 255 - n % 256 := by
  apply Nat.eq_of_testBit_eq
  intro i
  have h1 : (255 : Nat) = 2 ^ 8 - 1 := by norm_num
  have h2 : 255 - n % 256 = 2 ^ 8 - (n % 2 ^ 8 + 1) := by norm_num; omega
  rw [Nat.testBit_ldiff, h2, Nat.testBit_two_pow_sub_succ (Nat.mod_lt _ (by norm_num)), h1,
    Nat.testBit_two_pow_sub_one, Nat.testBit_mod_two_pow]
  by_cases hi : i < 8 <;> simp [hi]

/-- Masking an integer with `0xFF` is reduction modulo 256, negative values included. -/
theorem land_255 (x : Int) : Int.land x 0xFF = x % 256 := by
  cases x with
  | ofNat n =>
    show ((n &&& 255 : Nat) : Int) = (n : Int) % 256
    have h := Nat.and_pow_two_sub_one_eq_mod n 8
    norm_num at h
    rw [h]; norm_cast
  | negSucc n =>
    show ((Nat.ldiff 255 n : Nat) : Int) = Int.negSucc n % 256
    rw [ldiff_255, Int.negSucc_eq]
    omega

/-- The three components of `HexToRGB`, in terms of floor division and remainder. -/
theorem HexToRGB_eq (h : Int) : HexToRGB h = ⟨h / 65536, h / 256 % 256, h % 256⟩ := by
  have h16 : h >>> (16 : Nat) = h / 65536 := by rw [Int.shiftRight_eq_div_pow]; norm_num
  have h8 : h >>> (8 : Nat) = h / 256 := by rw [Int.shiftRight_eq_div_pow]; norm_num
  simp only [HexToRGB, land_255, h16, h8]
/-! ## Facts about `Nat.toDigits` -/

theorem toDigitsCore_acc (b : Nat) (fuel : Nat) :
    ∀ (n : Nat) (acc : List Char),
      Nat.toDigitsCore b fuel n acc = Nat.toDigitsCore b fuel n [] ++ acc := by
  induction fuel with
  | zero => intro n acc; simp [Nat.toDigitsCore]
  | succ f ih =>
    intro n acc
    simp only [Nat.toDigitsCore]
    by_cases h : n / b = 0
    · simp [h]
    · simp only [h, if_false]
      rw [ih (n / b) (Nat.digitChar (n % b) :: acc), ih (n / b) [Nat.digitChar (n % b)]]
      simp

theorem toDigitsCore_fuel (b : Nat) (hb : 2 ≤ b) (f1 : Nat) :
    ∀ (f2 n : Nat) (acc : List Char), n < f1 → n < f2 →
      Nat.toDigitsCore b f1 n acc = Nat.toDigitsCore b f2 n acc := by
  induction f1 with
  | zero => intro f2 n acc h; omega
  | succ f ih =>
    intro f2 n acc h1 h2
    cases f2 with
    | zero => omega
    | succ g =>
      simp only [Nat.toDigitsCore]
      by_cases h : n / b = 0
      · simp [h]
      · simp only [h, if_false]
        have hpos : 0 < n := by
          rcases Nat.eq_zero_or_pos n with h0 | h0
          · subst h0; simp at h
          · exact h0
        have hlt : n / b < n := Nat.div_lt_self hpos (by omega)
        exact ih g (n / b) _ (by omega) (by omega)

/-- A number below the base is a single digit. -/
theorem toDigits_lt (b n : Nat) (h : n < b) :
    Nat.toDigits b n = [Nat.digitChar n] := by
  simp [Nat.toDigits, Nat.toDigitsCore, Nat.div_eq_of_lt h, Nat.mod_eq_of_lt h]

/-- The numeral of a number not below the base is the numeral of the quotient
followed by the last digit. -/
theorem toDigits_ge (b n : Nat) (hb : 2 ≤ b) (h : b ≤ n) :
    Nat.toDigits b n = Nat.toDigits b (n / b) ++ [Nat.digitChar (n % b)] := by
  have hq : n / b ≠ 0 := by
    have := Nat.div_pos h (by omega : 0 < b); omega
  have hlt : n / b < n := Nat.div_lt_self (by omega) (by omega)
  have e : Nat.toDigits b n = Nat.toDigitsCore b n (n / b) [Nat.digitChar (n % b)] := by
    simp only [Nat.toDigits]
    rw [Nat.toDigitsCore]
    simp [hq]
  rw [e, toDigitsCore_acc, toDigitsCore_fuel b hb n (n / b + 1) (n / b) [] hlt (by omega)]
  rfl

/-- The digit loop of `fmtInteger` computes the digits of `Nat.toDigits`. -/
theorem fmtDigits_eq_toDigitsCore (b : Nat) (hb : 2 ≤ b) (hb16 : b ≤ 16) (f1 : Nat) :
    ∀ (f2 u : Nat) (acc : List Char), u < 2 ^ f1 → u < f2 →
      fmtDigits b f1 u acc = Nat.toDigitsCore b f2 u acc := by
  have hd : ∀ d, d < 16 → ldigits.getD d '?' = Nat.digitChar d := by
    intro d hd; interval_cases d <;> rfl
  have hd2 : ∀ d, d < 16 → ldigits[d]?.getD '?' = Nat.digitChar d := by
    intro d hd; interval_cases d <;> rfl
  induction f1 with
  | zero =>
    intro f2 u acc h1 h2
    have hu : u = 0 := by simpa using h1
    subst hu
    cases f2 with
    | zero => omega
    | succ g => simp [fmtDigits, Nat.toDigitsCore, hd2]
  | succ f ih =>
    intro f2 u acc h1 h2
    cases f2 with
    | zero => omega
    | succ g =>
      simp only [fmtDigits, Nat.toDigitsCore]
      by_cases h : u ≥ b
      · have hq : u / b ≠ 0 := by
          have := Nat.div_pos h (by omega : 0 < b); omega
        have hlt : u / b < u := Nat.div_lt_self (by omega) (by omega)
        have hpow : u / b < 2 ^ f := by
          have h2f : u < 2 * 2 ^ f := by rw [pow_succ] at h1; omega
          calc u / b ≤ u / 2 := Nat.div_le_div_left hb (by norm_num)
            _ < 2 ^ f := by omega
        simp only [h, hq, if_true, if_false]
        rw [hd _ (by have := Nat.mod_lt u (by omega : 0 < b); omega)]
        exact ih g (u / b) _ hpow (by omega)
      · have hlt : u < b := by omega
        simp [h, Nat.div_eq_of_lt hlt, Nat.mod_eq_of_lt hlt, hd2 u (by omega)]

theorem fmtDigits_eq_toDigits (b : Nat) (hb : 2 ≤ b) (hb16 : b ≤ 16) (u : Nat) (hu : u < 2 ^ 64) :
    fmtDigits b 64 u [] = Nat.toDigits b u :=
  fmtDigits_eq_toDigitsCore b hb hb16 64 (u + 1) u [] hu (by omega)

/-- Every character of a numeral is a digit below the base. -/
theorem toDigits_mem (b : Nat) (hb : 2 ≤ b) (n : Nat) :
    ∀ c ∈ Nat.toDigits b n, ∃ d, d < b ∧ c = Nat.digitChar d := by
  induction n using Nat.strong_induction_on with
  | _ n ih =>
    intro c hc
    by_cases h : n < b
    · rw [toDigits_lt b n h] at hc
      exact ⟨n, h, by simpa using hc⟩
    · rw [toDigits_ge b n hb (by omega)] at hc
      rcases List.mem_append.mp hc with hc | hc
      · exact ih (n / b) (Nat.div_lt_self (by omega) (by omega)) c hc
      · exact ⟨n % b, Nat.mod_lt _ (by omega), by simpa using hc⟩

/-- The numeral of a positive number starts with a non-zero digit. -/
theorem toDigits_head (b : Nat) (hb : 2 ≤ b) (n : Nat) (hn : 0 < n) :
    ∃ d rest, 0 < d ∧ d < b ∧ Nat.toDigits b n = Nat.digitChar d :: rest := by
  induction n using Nat.strong_induction_on with
  | _ n ih =>
    by_cases h : n < b
    · exact ⟨n, [], hn, h, toDigits_lt b n h⟩
    · have hq : 0 < n / b := Nat.div_pos (by omega) (by omega)
      obtain ⟨d, rest, hd0, hdb, hrest⟩ := ih (n / b) (Nat.div_lt_self (by omega) (by omega)) hq
      exact ⟨d, rest ++ [Nat.digitChar (n % b)], hd0, hdb, by
        rw [toDigits_ge b n hb (by omega), hrest]; rfl⟩

theorem toDigits_length_le (b : Nat) (hb : 2 ≤ b) (k : Nat) :
    ∀ n, n < b ^ (k + 1) → (Nat.toDigits b n).length ≤ k + 1 := by
  induction k with
  | zero =>
    intro n hn
    rw [toDigits_lt b n (by simpa using hn)]; simp
  | succ k ih =>
    intro n hn
    by_cases h : n < b
    · rw [toDigits_lt b n h]; simp
    · rw [toDigits_ge b n hb (by omega)]
      have hq : n / b < b ^ (k + 1) := by
        apply Nat.div_lt_of_lt_mul
        rw [pow_succ] at hn
        rw [Nat.mul_comm]; exact hn
      have := ih (n / b) hq
      simp; omega
/-! ## Facts about `fmtInteger` -/

theorem toInt64_of_range (x : Int) (h1 : -2 ^ 63 ≤ x) (h2 : x < 2 ^ 63) : toInt64 x = x := by
  unfold toInt64
  norm_num at h1 h2 ⊢
  omega

theorem leftpad_length_ge (w : Nat) (c : Char) (l : List Char) :
    w ≤ (List.leftpad w c l).length := by
  simp [List.leftpad]; omega

/-- A non-negative operand is printed as its own magnitude, without sign. -/
theorem fmtInteger_nonneg (n : Nat) (hn : n < 2 ^ 63) (base : Nat) (wid : Option Nat)
    (zero : Bool) : fmtInteger (n : Int) base wid zero = fmtMagnitude false n base wid zero := by
  have hu : ((n : Int) % 2 ^ 64).toNat = n := by
    norm_num at hn ⊢; omega
  have hneg : ¬ toInt64 (n : Int) < 0 := by
    rw [toInt64_of_range _ (by norm_num at hn ⊢; omega) (by exact_mod_cast hn)]; omega
  unfold fmtInteger
  simp only [hu, hneg, decide_False, Bool.false_eq_true, if_false]

/-- For a non-negative operand `%02x` is the hexadecimal numeral, zero-padded to two characters. -/
theorem fmt02x_nonneg (n : Nat) (hn : n < 2 ^ 63) :
    fmtInteger (n : Int) 16 (some 2) true = hexPadded 2 n := by
  have hd : fmtDigits 16 64 n [] = Nat.toDigits 16 n :=
    fmtDigits_eq_toDigits 16 (by norm_num) (by norm_num) n (by norm_num at hn ⊢; omega)
  have hlen := leftpad_length_ge 2 '0' (Nat.toDigits 16 n)
  rw [fmtInteger_nonneg n hn]
  simp only [fmtMagnitude, hd, hexPadded, Bool.false_eq_true, if_false, if_true]
  change List.replicate (2 - (List.leftpad 2 '0' (Nat.toDigits 16 n)).length) ' ' ++
      List.leftpad 2 '0' (Nat.toDigits 16 n) = _
  rw [Nat.sub_eq_zero_of_le hlen]; rfl

theorem hexPadded_succ (k n : Nat) (hk : 1 ≤ k) (hn : n < 16 ^ (k + 1)) :
    hexPadded (k + 1) n = hexPadded k (n / 16) ++ [Nat.digitChar (n % 16)] := by
  by_cases h : n < 16
  · rw [Nat.div_eq_of_lt h, Nat.mod_eq_of_lt h]
    simp only [hexPadded, toDigits_lt 16 n h, toDigits_lt 16 0 (by norm_num), List.leftpad,
      List.length_singleton]
    have e : k + 1 - 1 = (k - 1) + 1 := by omega
    rw [e, List.replicate_succ' (k - 1) '0']
    simp
    rfl
  · have hlen : (Nat.toDigits 16 (n / 16)).length ≤ k := by
      obtain ⟨j, rfl⟩ : ∃ j, k = j + 1 := ⟨k - 1, by omega⟩
      apply toDigits_length_le 16 (by norm_num) j
      apply Nat.div_lt_of_lt_mul
      rw [pow_succ] at hn
      rw [Nat.mul_comm]; exact hn
    simp only [hexPadded, toDigits_ge 16 n (by norm_num) (by omega), List.leftpad,
      List.length_append, List.length_singleton]
    have e : k + 1 - ((Nat.toDigits 16 (n / 16)).length + 1) =
        k - (Nat.toDigits 16 (n / 16)).length := by omega
    rw [e]; simp

theorem hexPadded_one (n : Nat) (hn : n < 16) : hexPadded 1 n = [Nat.digitChar n] := by
  simp [hexPadded, toDigits_lt 16 n hn, List.leftpad]

/-- The two hexadecimal digits of a byte. -/
theorem hexPadded_two (n : Nat) (hn : n < 256) :
    hexPadded 2 n = [Nat.digitChar (n / 16), Nat.digitChar (n % 16)] := by
  rw [hexPadded_succ 1 n (by norm_num) (by norm_num; omega), hexPadded_one _ (by omega)]
  rfl

/-- The six hexadecimal digits of a 24-bit number. -/
theorem hexPadded_six (n : Nat) (hn : n < 16777216) :
    hexPadded 6 n =
      [Nat.digitChar (n / 1048576), Nat.digitChar (n / 65536 % 16),
       Nat.digitChar (n / 4096 % 16), Nat.digitChar (n / 256 % 16),
       Nat.digitChar (n / 16 % 16), Nat.digitChar (n % 16)] := by
  rw [hexPadded_succ 5 n (by norm_num) (by norm_num; omega),
    hexPadded_succ 4 _ (by norm_num) (by norm_num; omega),
    hexPadded_succ 3 _ (by norm_num) (by norm_num; omega),
    hexPadded_succ 2 _ (by norm_num) (by norm_num; omega),
    hexPadded_succ 1 _ (by norm_num) (by norm_num; omega),
    hexPadded_one _ (by omega)]
  simp only [List.cons_append, List.nil_append, Nat.div_div_eq_div_mul]

/-- A 24-bit numeral is the concatenation of the numerals of its three bytes. -/
theorem hexPadded_six_split (n : Nat) (hn : n < 16777216) :
    hexPadded 6 n =
      hexPadded 2 (n / 65536) ++ hexPadded 2 (n / 256 % 256) ++ hexPadded 2 (n % 256) := by
  rw [hexPadded_six n hn, hexPadded_two _ (by omega), hexPadded_two _ (by omega),
    hexPadded_two _ (by omega)]
  have e1 : n / 65536 / 16 = n / 1048576 := by omega
  have e2 : n / 65536 % 16 = n / 65536 % 16 := rfl
  have e3 : n / 256 % 256 / 16 = n / 4096 % 16 := by omega
  have e4 : n / 256 % 256 % 16 = n / 256 % 16 := by omega
  have e5 : n % 256 / 16 = n / 16 % 16 := by omega
  have e6 : n % 256 % 16 = n % 16 := by omega
  rw [e1, e3, e4, e5, e6]
  rfl
/-! ## Facts about the digit loop of `ParseUint` -/

/-- What `ParseUint` makes of the characters that `Nat.digitChar` produces. -/
theorem digitChar_facts (d : Nat) (hd : d < 16) :
    digitVal (Nat.digitChar d) = some d ∧ Nat.digitChar d ≠ '_' ∧ Nat.digitChar d ≠ '+' ∧
      Nat.digitChar d ≠ '-' ∧ Nat.digitChar d ≠ ',' ∧ (0 < d → Nat.digitChar d ≠ '0') := by
  interval_cases d <;> decide

theorem foldl_digits_ge (base : Nat) (hb : 1 ≤ base) (ds : List Nat) :
    ∀ acc, acc ≤ ds.foldl (fun a d => a * base + d) acc := by
  induction ds with
  | nil => intro acc; exact Nat.le_refl _
  | cons d ds ih =>
    intro acc
    have h1 : acc ≤ acc * base + d := by nlinarith
    exact Nat.le_trans h1 (ih _)

/-- On a run of digits whose value fits, the loop returns that value and finds no underscore. -/
theorem parseLoop_digits (base : Nat) (hb : 2 ≤ base) (hb16 : base ≤ 16) (base0 : Bool)
    (maxVal : Nat) (hmax : maxVal < 2 ^ 64) (ds : List Nat) :
    ∀ (acc : Nat) (us : Bool), (∀ d ∈ ds, d < base) →
      ds.foldl (fun a d => a * base + d) acc ≤ maxVal →
      parseLoop base base0 ((2 ^ 64 - 1) / base + 1) maxVal (ds.map Nat.digitChar) acc us =
        .ok (ds.foldl (fun a d => a * base + d) acc, us) := by
  induction ds with
  | nil => intro acc us _ _; rfl
  | cons d ds ih =>
    intro acc us hds hval
    have hd : d < base := hds d (by simp)
    obtain ⟨hv, hu, -, -, -, -⟩ := digitChar_facts d (by omega)
    have hge := foldl_digits_ge base (by omega) ds (acc * base + d)
    simp only [List.foldl_cons] at hval
    have h1 : acc * base + d ≤ maxVal := Nat.le_trans hge hval
    have h2 : acc * base < 2 ^ 64 := by omega
    have h3 : ¬ acc ≥ (2 ^ 64 - 1) / base + 1 := by
      have : acc ≤ (2 ^ 64 - 1) / base := by
        rw [Nat.le_div_iff_mul_le (by omega)]; omega
      omega
    have h4 : ¬ d ≥ base % 256 := by
      rw [Nat.mod_eq_of_lt (by omega)]; omega
    have h5 : acc * base % 2 ^ 64 = acc * base := Nat.mod_eq_of_lt h2
    have h6 : (acc * base + d) % 2 ^ 64 = acc * base + d := Nat.mod_eq_of_lt (by omega)
    have h7 : ¬ (acc * base + d < acc * base ∨ acc * base + d > maxVal) := by omega
    simp only [List.map_cons, parseLoop, hu, false_and, if_false, hv, h3, h4, h5, h6, h7,
      List.foldl_cons]
    exact ih (acc * base + d) us (fun x hx => hds x (by simp [hx])) hval

/-- A numeral is a run of digits whose value is the number. -/
theorem toDigits_eq_map (b : Nat) (hb : 2 ≤ b) (n : Nat) :
    ∃ ds : List Nat, Nat.toDigits b n = ds.map Nat.digitChar ∧ (∀ d ∈ ds, d < b) ∧
      ds.foldl (fun a d => a * b + d) 0 = n := by
  induction n using Nat.strong_induction_on with
  | _ n ih =>
    by_cases h : n < b
    · exact ⟨[n], by rw [toDigits_lt b n h]; rfl, by simpa using h, by simp⟩
    · obtain ⟨ds, h1, h2, h3⟩ := ih (n / b) (Nat.div_lt_self (by omega) (by omega))
      refine ⟨ds ++ [n % b], ?_, ?_, ?_⟩
      · rw [toDigits_ge b n hb (by omega), h1]; simp
      · intro d hd
        rcases List.mem_append.mp hd with hd | hd
        · exact h2 d hd
        · have : d = n % b := by simpa using hd
          rw [this]; exact Nat.mod_lt _ (by omega)
      · rw [List.foldl_append, h3]
        simp only [List.foldl_cons, List.foldl_nil]
        have := Nat.div_add_mod n b
        rw [Nat.mul_comm] at this; exact this

/-- The loop reads a numeral back as the number it denotes. -/
theorem parseLoop_toDigits (base : Nat) (hb : 2 ≤ base) (hb16 : base ≤ 16) (base0 : Bool)
    (maxVal : Nat) (hmax : maxVal < 2 ^ 64) (n : Nat) (hn : n ≤ maxVal) (us : Bool) :
    parseLoop base base0 ((2 ^ 64 - 1) / base + 1) maxVal (Nat.toDigits base n) 0 us =
      .ok (n, us) := by
  obtain ⟨ds, h1, h2, h3⟩ := toDigits_eq_map base hb n
  rw [h1, parseLoop_digits base hb hb16 base0 maxVal hmax ds 0 us h2 (by rw [h3]; exact hn), h3]
/-! ## `ParseInt` on canonical numerals -/

/-- With base 0 and bit size 64, `ParseUint` reads a decimal numeral back. -/
theorem ParseUint_decimal (n : Nat) (hn : n < 2 ^ 64) :
    ParseUint (Nat.toDigits 10 n) 0 64 = (n, none) := by
  rcases Nat.eq_zero_or_pos n with h0 | hpos
  · subst h0; decide
  · obtain ⟨d, rest, hd0, hd10, hs⟩ := toDigits_head 10 (by norm_num) n hpos
    obtain ⟨-, -, -, -, -, hz⟩ := digitChar_facts d (by omega)
    have hsel : selectBase (Nat.toDigits 10 n) 0 = some (10, Nat.toDigits 10 n) := by
      rw [hs]
      simp [selectBase, byteAt, hz hd0]
    have hloop := parseLoop_toDigits 10 (by norm_num) (by norm_num) true (2 ^ 64 - 1)
      (by norm_num) n (by omega) false
    have hne : Nat.toDigits 10 n ≠ [] := by rw [hs]; simp
    simp only [ParseUint, hne, if_false, hsel]
    norm_num [IntSize]
    norm_num at hloop
    rw [hloop]
    simp

theorem decimal_head (n : Nat) :
    ∃ c cs, Nat.toDigits 10 n = c :: cs ∧ c ≠ '+' ∧ c ≠ '-' := by
  rcases Nat.eq_zero_or_pos n with h0 | hpos
  · subst h0; exact ⟨'0', [], by decide, by decide, by decide⟩
  · obtain ⟨d, rest, -, hd10, hs⟩ := toDigits_head 10 (by norm_num) n hpos
    obtain ⟨-, -, h1, h2, -, -⟩ := digitChar_facts d (by omega)
    exact ⟨_, rest, hs, h1, h2⟩

/-- With base 0 and bit size 64, `ParseInt` reads the canonical decimal numeral
of every `int64` value back, without error. -/
theorem ParseInt_decimal (n : Int) (h1 : -2 ^ 63 ≤ n) (h2 : n < 2 ^ 63) :
    ParseInt (decimalNumeral n) 0 64 = (n, none) := by
  cases n with
  | ofNat m =>
    have hm : m < 2 ^ 63 := by
      have : (m : Int) < 2 ^ 63 := h2
      exact_mod_cast this
    obtain ⟨c, cs, hs, hp, hq⟩ := decimal_head m
    have hu := ParseUint_decimal m (by norm_num at hm ⊢; omega)
    rw [hs] at hu
    have hc : ¬ (m ≥ 2 ^ 63 % 2 ^ 64) := by norm_num at hm ⊢; omega
    have ht := toInt64_of_range (m : Int) (by norm_num; omega) (by exact_mod_cast hm)
    simp only [decimalNumeral, hs, ParseInt, hp, hq, if_false, hu, parseIntFinish, IntSize]
    simp [hc, ht]
    norm_num at hm; omega
  | negSucc m =>
    have hm : m < 2 ^ 63 := by
      rw [Int.negSucc_eq] at h1; norm_num at h1 ⊢; omega
    have hu := ParseUint_decimal (m + 1) (by norm_num at hm ⊢; omega)
    have ht : toInt64 (-toInt64 ((m + 1 : Nat) : Int)) = Int.negSucc m := by
      rw [Int.negSucc_eq]; unfold toInt64; norm_num at hm ⊢; omega
    have hc2 : ¬ (9223372036854775808 < m + 1) := by norm_num at hm; omega
    simp only [decimalNumeral, ParseInt, parseIntFinish, IntSize]
    simp [hu, hc2]
    have e : ((m : Int) + 1) = ((m + 1 : Nat) : Int) := by push_cast; rfl
    rw [e, ht]
/-! ## `ParseInt` on six hexadecimal digits -/

theorem ParseUint_hex32 (s : GoString) (n : Nat) (hs : s ≠ [])
    (hloop : parseLoop 16 false ((2 ^ 64 - 1) / 16 + 1) (2 ^ 32 - 1) s 0 false = .ok (n, false)) :
    ParseUint s 16 32 = (n, none) := by
  have hsel : selectBase s 16 = some (16, s) := by simp [selectBase]
  have h1 : ¬ ((32 : Nat) > 64) := by decide
  have h2 : (if (32 : Nat) = 0 then IntSize else 32) = 32 := by decide
  have h3 : (2 ^ 32 % 2 ^ 64 + 2 ^ 64 - 1) % 2 ^ 64 = 2 ^ 32 - 1 := by decide
  have h4 : (decide ((16 : Nat) = 0)) = false := by decide
  unfold ParseUint
  simp only [hs, if_false, hsel, h1, h2, h3, h4, hloop]
  simp

/-- On an unsigned numeral that `ParseUint` accepts, `ParseInt` goes straight to its range check. -/
theorem ParseInt_unsigned (c : Char) (cs : GoString) (base bitSize n : Nat)
    (hp : c ≠ '+') (hq : c ≠ '-') (hu : ParseUint (c :: cs) base bitSize = (n, none)) :
    ParseInt (c :: cs) base bitSize = parseIntFinish (c :: cs) false n bitSize := by
  unfold ParseInt
  simp only [hp, hq, if_false, hu, decide_False]

theorem parseIntFinish_ok_nonneg32 (s0 : GoString) (n : Nat) (hn : n < 2147483648) :
    parseIntFinish s0 false n 32 = ((n : Int), none) := by
  have ht := toInt64_of_range (n : Int) (by norm_num; omega) (by norm_num; omega)
  have h2 : (if (32 : Nat) = 0 then IntSize else 32) = 32 := by decide
  have h3 : 2 ^ (32 - 1) % 2 ^ 64 = 2147483648 := by decide
  have h4 : ¬ (n ≥ 2147483648) := by omega
  unfold parseIntFinish
  simp only [h2, h3, h4, and_false, if_false, Bool.false_eq_true, false_and, ht]

/-- With base 16 and bit size 32, `ParseInt` reads the six-digit numeral of a
24-bit number back, without error. -/
theorem ParseInt_hexPadded_six (n : Nat) (hn : n < 16777216) :
    ParseInt (hexPadded 6 n) 16 32 = ((n : Int), none) := by
  have hds : ∀ d ∈ [n / 1048576, n / 65536 % 16, n / 4096 % 16, n / 256 % 16, n / 16 % 16,
      n % 16], d < 16 := by
    intro d hd
    simp only [List.mem_cons, List.mem_singleton, List.not_mem_nil, or_false] at hd
    omega
  have hval : [n / 1048576, n / 65536 % 16, n / 4096 % 16, n / 256 % 16, n / 16 % 16,
      n % 16].foldl (fun a d => a * 16 + d) 0 = n := by
    simp only [List.foldl_cons, List.foldl_nil]; omega
  have hm : (2 ^ 32 - 1 : Nat) < 2 ^ 64 := by decide
  have hle : n ≤ 2 ^ 32 - 1 := by
    have : (2 ^ 32 - 1 : Nat) = 4294967295 := by decide
    omega
  have hloop := parseLoop_digits 16 (by decide) (by decide) false (2 ^ 32 - 1) hm
    _ 0 false hds (by rw [hval]; exact hle)
  rw [hval] at hloop
  obtain ⟨-, -, hp, hq, -, -⟩ := digitChar_facts (n / 1048576) (by omega)
  rw [hexPadded_six n hn]
  have hu := ParseUint_hex32 _ n (by simp) hloop
  simp only [List.map_cons, List.map_nil] at hu
  rw [ParseInt_unsigned _ _ 16 32 n hp hq hu, parseIntFinish_ok_nonneg32 _ n (by omega)]
/-! ## The failures of `ParseInt` -/

theorem toInt64_range (x : Int) : -2 ^ 63 ≤ toInt64 x ∧ toInt64 x < 2 ^ 63 := by
  unfold toInt64; norm_num; omega

/-- An early return of the digit loop reports a syntax failure with value 0 or
a range failure with value `maxVal`. -/
theorem parseLoop_error (base : Nat) (base0 : Bool) (cutoff maxVal : Nat) (s : GoString) :
    ∀ (n : Nat) (us : Bool) (v : Nat) (e : NumErr),
      parseLoop base base0 cutoff maxVal s n us = .error (v, e) →
      (e = .ErrSyntax ∧ v = 0) ∨ (e = .ErrRange ∧ v = maxVal) := by
  induction s with
  | nil => intro n us v e h; simp [parseLoop] at h
  | cons c cs ih =>
    intro n us v e h
    simp only [parseLoop] at h
    split at h
    · exact ih _ _ _ _ h
    · split at h
      · simp only [Except.error.injEq, Prod.mk.injEq] at h
        exact Or.inl ⟨h.2.symm, h.1.symm⟩
      · split_ifs at h
        · simp only [Except.error.injEq, Prod.mk.injEq] at h
          exact Or.inl ⟨h.2.symm, h.1.symm⟩
        · simp only [Except.error.injEq, Prod.mk.injEq] at h
          exact Or.inr ⟨h.2.symm, h.1.symm⟩
        · simp only [Except.error.injEq, Prod.mk.injEq] at h
          exact Or.inr ⟨h.2.symm, h.1.symm⟩
        · exact ih _ _ _ _ h

theorem selectBase_zero (s : GoString) : ∃ b t, selectBase s 0 = some (b, t) := by
  unfold selectBase
  split_ifs <;> simp_all

/-- `ParseUint` with base 0 and bit size 64, past its argument checks. -/
theorem ParseUint_zero64 (s : GoString) (hs : s ≠ []) (b : Nat) (t : GoString)
    (hsel : selectBase s 0 = some (b, t)) :
    ParseUint s 0 64 =
      match parseLoop b true ((2 ^ 64 - 1) / b + 1) (2 ^ 64 - 1) t 0 false with
      | .error (v, e) => (v, some ⟨"ParseUint", s, e⟩)
      | .ok (n, underscores) =>
        if underscores = true ∧ underscoreOK s = false then
          (0, some ⟨"ParseUint", s, .ErrSyntax⟩)
        else (n, none) := by
  unfold ParseUint
  simp only [hs, if_false, hsel]
  rfl

/-- With base 0 and bit size 64, `ParseUint` fails only with a syntax or a range failure. -/
theorem ParseUint_error (s : GoString) (un : Nat) (e : NumError)
    (h : ParseUint s 0 64 = (un, some e)) : e.Err = .ErrSyntax ∨ e.Err = .ErrRange := by
  obtain ⟨b, t, hsel⟩ := selectBase_zero s
  by_cases hs : s = []
  · subst hs
    have h0 : ParseUint [] 0 64 = (0, some ⟨"ParseUint", [], .ErrSyntax⟩) := rfl
    rw [h0] at h
    simp only [Prod.mk.injEq, Option.some.injEq] at h
    rw [← h.2]; exact Or.inl rfl
  · rw [ParseUint_zero64 s hs b t hsel] at h
    generalize hl : parseLoop b true ((2 ^ 64 - 1) / b + 1) (2 ^ 64 - 1) t 0 false = res at h
    cases res with
    | error p =>
      obtain ⟨v, e2⟩ := p
      simp only [Prod.mk.injEq, Option.some.injEq] at h
      rw [← h.2]
      rcases parseLoop_error _ _ _ _ _ _ _ _ _ hl with ⟨he, -⟩ | ⟨he, -⟩
      · exact Or.inl he
      · exact Or.inr he
    | ok p =>
      obtain ⟨n, us⟩ := p
      simp only at h
      split_ifs at h
      · simp only [Prod.mk.injEq, Option.some.injEq] at h
        rw [← h.2]; exact Or.inl rfl
      · simp at h

/-- The range check of `ParseInt` at bit size 64, with its constants evaluated. -/
theorem parseIntFinish_64 (s0 : GoString) (neg : Bool) (un : Nat) :
    parseIntFinish s0 neg un 64 =
      if neg = false ∧ un ≥ 9223372036854775808 then
        (9223372036854775807, some ⟨"ParseInt", s0, .ErrRange⟩)
      else if neg = true ∧ un > 9223372036854775808 then
        (-9223372036854775808, some ⟨"ParseInt", s0, .ErrRange⟩)
      else (if neg = true then toInt64 (-toInt64 (un : Int)) else toInt64 (un : Int), none) := by
  have h2 : (if (64 : Nat) = 0 then IntSize else 64) = 64 := by decide
  have h3 : 2 ^ (64 - 1) % 2 ^ 64 = 9223372036854775808 := by decide
  have h4 : toInt64 ((9223372036854775808 - 1 : Nat) : Int) = 9223372036854775807 := by decide
  have h5 : toInt64 (-toInt64 ((9223372036854775808 : Nat) : Int)) = -9223372036854775808 := by
    decide
  unfold parseIntFinish
  simp only [h2, h3, h4, h5]

/-- The range check of `ParseInt` at bit size 64 fails only with a range
failure, and then returns the bound on the side of the sign: `2^63 - 1` without
a minus sign, `-2^63` with one. -/
theorem parseIntFinish_error (s0 : GoString) (neg : Bool) (un : Nat) (x : Int) (e : NumError)
    (h : parseIntFinish s0 neg un 64 = (x, some e)) :
    e.Err = .ErrRange ∧ ((neg = false ∧ x = 2 ^ 63 - 1) ∨ (neg = true ∧ x = -2 ^ 63)) := by
  rw [parseIntFinish_64] at h
  split_ifs at h with h1 h2
  · simp only [Prod.mk.injEq, Option.some.injEq] at h
    refine ⟨by rw [← h.2], Or.inl ⟨h1.1, ?_⟩⟩
    rw [← h.1]; norm_num
  · simp only [Prod.mk.injEq, Option.some.injEq] at h
    refine ⟨by rw [← h.2], Or.inr ⟨h2.1, ?_⟩⟩
    rw [← h.1]; norm_num
  · simp at h
  · simp at h

/-- The sign that `ParseInt` picks off, in terms of the first character. -/
theorem neg_iff_head (c : Char) (cs : GoString) (x : Int) (bound1 bound2 : Int)
    (h : (decide (c = '-') = false ∧ x = bound1) ∨ (decide (c = '-') = true ∧ x = bound2)) :
    ((c :: cs).head? ≠ some '-' ∧ x = bound1) ∨ ((c :: cs).head? = some '-' ∧ x = bound2) := by
  rcases h with ⟨hn, hx⟩ | ⟨hn, hx⟩
  · refine Or.inl ⟨?_, hx⟩
    have hc : c ≠ '-' := by simpa using hn
    simpa using hc
  · refine Or.inr ⟨?_, hx⟩
    have hc : c = '-' := by simpa using hn
    simp [hc]

/-- With base 0 and bit size 64, a failing `ParseInt` returns 0 on a syntax
failure and, on a range failure, the `int64` bound nearest to the numeral:
`-2^63` when the string starts with a minus sign, `2^63 - 1` otherwise. -/
theorem ParseInt_error_value (s : GoString) (x : Int) (e : NumError)
    (h : ParseInt s 0 64 = (x, some e)) :
    (e.Err = .ErrSyntax ∧ x = 0) ∨
      (e.Err = .ErrRange ∧
        ((s.head? ≠ some '-' ∧ x = 2 ^ 63 - 1) ∨ (s.head? = some '-' ∧ x = -2 ^ 63))) := by
  unfold ParseInt at h
  cases s with
  | nil =>
    simp only [Prod.mk.injEq, Option.some.injEq] at h
    exact Or.inl ⟨by rw [← h.2], h.1.symm⟩
  | cons c cs =>
    simp only at h
    generalize hu : ParseUint (if c = '+' then cs else if c = '-' then cs else c :: cs) 0 64
      = res at h
    obtain ⟨un, err⟩ := res
    cases err with
    | none =>
      obtain ⟨he, hx⟩ := parseIntFinish_error _ _ _ _ _ h
      exact Or.inr ⟨he, neg_iff_head c cs x _ _ hx⟩
    | some e2 =>
      simp only at h
      by_cases hne : e2.Err = .ErrRange
      · simp only [hne, ne_eq, not_true_eq_false, if_false] at h
        obtain ⟨he, hx⟩ := parseIntFinish_error _ _ _ _ _ h
        exact Or.inr ⟨he, neg_iff_head c cs x _ _ hx⟩
      · simp only [ne_eq, hne, not_false_eq_true, if_true, Prod.mk.injEq,
          Option.some.injEq] at h
        rcases ParseUint_error _ _ _ hu with he | he
        · exact Or.inl ⟨by rw [← h.2]; exact he, h.1.symm⟩
        · exact absurd he hne
/-! ## The range of a successful `ParseInt` at bit size 32 -/

/-- The range check of `ParseInt` at bit size 32, with its constants evaluated. -/
theorem parseIntFinish_32 (s0 : GoString) (neg : Bool) (un : Nat) :
    parseIntFinish s0 neg un 32 =
      if neg = false ∧ un ≥ 2147483648 then
        (2147483647, some ⟨"ParseInt", s0, .ErrRange⟩)
      else if neg = true ∧ un > 2147483648 then
        (-2147483648, some ⟨"ParseInt", s0, .ErrRange⟩)
      else (if neg = true then toInt64 (-toInt64 (un : Int)) else toInt64 (un : Int), none) := by
  have h2 : (if (32 : Nat) = 0 then IntSize else 32) = 32 := by decide
  have h3 : 2 ^ (32 - 1) % 2 ^ 64 = 2147483648 := by decide
  have h4 : toInt64 ((2147483648 - 1 : Nat) : Int) = 2147483647 := by decide
  have h5 : toInt64 (-toInt64 ((2147483648 : Nat) : Int)) = -2147483648 := by decide
  unfold parseIntFinish
  simp only [h2, h3, h4, h5]

theorem parseIntFinish_ok32 (s0 : GoString) (neg : Bool) (un : Nat) (x : Int)
    (h : parseIntFinish s0 neg un 32 = (x, none)) : -2 ^ 31 ≤ x ∧ x < 2 ^ 31 := by
  rw [parseIntFinish_32] at h
  split_ifs at h with h1 h2 h3
  · simp at h
  · simp at h
  · simp only [Prod.mk.injEq, and_true] at h
    have hle : un ≤ 2147483648 := by
      by_contra hc
      exact h2 ⟨h3, by omega⟩
    rw [← h]; unfold toInt64; norm_num; omega
  · simp only [Prod.mk.injEq, and_true] at h
    have hlt : un < 2147483648 := by
      by_contra hc
      exact h1 ⟨by simpa using h3, by omega⟩
    rw [← h]; unfold toInt64; norm_num; omega

/-- A value that `ParseInt` accepts at bit size 32 is a signed 32-bit value. -/
theorem ParseInt_ok32 (s : GoString) (base : Nat) (v : Int)
    (h : ParseInt s base 32 = (v, none)) : -2 ^ 31 ≤ v ∧ v < 2 ^ 31 := by
  unfold ParseInt at h
  cases s with
  | nil => simp at h
  | cons c cs =>
    simp only at h
    generalize ParseUint (if c = '+' then cs else if c = '-' then cs else c :: cs) base 32
      = res at h
    obtain ⟨un, err⟩ := res
    cases err with
    | none => exact parseIntFinish_ok32 _ _ _ _ h
    | some e2 =>
      simp only at h
      by_cases hne : e2.Err = .ErrRange
      · simp only [hne, ne_eq, not_true_eq_false, if_false] at h
        exact parseIntFinish_ok32 _ _ _ _ h
      · simp [hne] at h
/-! ## The claims -/

/-- `RGBToHex` is the concatenation of the three formatted components. -/
theorem RGBToHex_def (x : rgbval) :
    RGBToHex x = fmtInteger x.red 16 (some 2) true ++ fmtInteger x.green 16 (some 2) true ++
      fmtInteger x.blue 16 (some 2) true := by
  unfold RGBToHex
  exact congrArg
    (fun l => l ++ fmtInteger x.green 16 (some 2) true ++ fmtInteger x.blue 16 (some 2) true)
    (List.nil_append (fmtInteger x.red 16 (some 2) true))

/-- The hexadecimal string of a triple of bytes: two digits per component. -/
theorem RGBToHex_bytes (r g b : Nat) (hr : r < 256) (hg : g < 256) (hb : b < 256) :
    RGBToHex ⟨(r : Int), (g : Int), (b : Int)⟩ = hexPadded 2 r ++ hexPadded 2 g ++ hexPadded 2 b := by
  have h1 : r < 2 ^ 63 := lt_trans hr (by norm_num)
  have h2 : g < 2 ^ 63 := lt_trans hg (by norm_num)
  have h3 : b < 2 ^ 63 := lt_trans hb (by norm_num)
  rw [RGBToHex_def]
  simp only [fmt02x_nonneg r h1, fmt02x_nonneg g h2, fmt02x_nonneg b h3]

/-- `HexToRGB` on a natural number, component by component. -/
theorem HexToRGB_natCast (n : Nat) :
    HexToRGB (n : Int) = ⟨((n / 65536 : Nat) : Int), ((n / 256 % 256 : Nat) : Int),
      ((n % 256 : Nat) : Int)⟩ := by
  rw [HexToRGB_eq]; norm_cast

/-- C1: for every integer `h` with `0 ≤ h ≤ 0xFFFFFF`, `RGBToHex` applied to
`HexToRGB h` is exactly the six-character, zero-padded, lowercase hexadecimal
numeral of `h`. -/
theorem C1_hex_roundtrip (h : Int) (h0 : 0 ≤ h) (h1 : h ≤ 0xFFFFFF) :
    RGBToHex (HexToRGB h) = hexPadded 6 h.toNat ∧ (RGBToHex (HexToRGB h)).length = 6 := by
  obtain ⟨n, rfl⟩ := Int.eq_ofNat_of_zero_le h0
  have hn : n < 16777216 := by omega
  have e : RGBToHex (HexToRGB (n : Int)) = hexPadded 6 n := by
    rw [HexToRGB_natCast, RGBToHex_bytes _ _ _ (by omega) (by omega) (by omega),
      hexPadded_six_split n hn]
  rw [e, Int.toNat_ofNat]
  exact ⟨rfl, by rw [hexPadded_six n hn]; rfl⟩

/-- C1 at `h = 0xAABBCC`. -/
theorem C1_hex_roundtrip_witness :
    RGBToHex (HexToRGB 0xAABBCC) = hexPadded 6 (Int.toNat 0xAABBCC) ∧
      (RGBToHex (HexToRGB 0xAABBCC)).length = 6 :=
  C1_hex_roundtrip 0xAABBCC (by decide) (by decide)

/-- C2: for every triple `(r, g, b)` with each component in `[0, 255]`, parsing
`RGBToHex (r, g, b)` the way the driver does (`ParseInt` with base 16 and bit
size 32) succeeds, and `HexToRGB` of the parsed value is `(r, g, b)` again. -/
theorem C2_rgb_roundtrip (r g b : Int) (hr : 0 ≤ r ∧ r ≤ 255) (hg : 0 ≤ g ∧ g ≤ 255)
    (hb : 0 ≤ b ∧ b ≤ 255) :
    (ParseInt (RGBToHex ⟨r, g, b⟩) 16 32).2 = none ∧
      HexToRGB (ParseInt (RGBToHex ⟨r, g, b⟩) 16 32).1 = ⟨r, g, b⟩ := by
  obtain ⟨r, rfl⟩ := Int.eq_ofNat_of_zero_le hr.1
  obtain ⟨g, rfl⟩ := Int.eq_ofNat_of_zero_le hg.1
  obtain ⟨b, rfl⟩ := Int.eq_ofNat_of_zero_le hb.1
  have hr2 : r < 256 := by omega
  have hg2 : g < 256 := by omega
  have hb2 : b < 256 := by omega
  have hn : r * 65536 + g * 256 + b < 16777216 := by omega
  have e : RGBToHex ⟨(r : Int), (g : Int), (b : Int)⟩ = hexPadded 6 (r * 65536 + g * 256 + b) := by
    rw [RGBToHex_bytes r g b hr2 hg2 hb2, hexPadded_six_split _ hn]
    have e1 : (r * 65536 + g * 256 + b) / 65536 = r := by omega
    have e2 : (r * 65536 + g * 256 + b) / 256 % 256 = g := by omega
    have e3 : (r * 65536 + g * 256 + b) % 256 = b := by omega
    rw [e1, e2, e3]
  rw [e, ParseInt_hexPadded_six _ hn]
  refine ⟨rfl, ?_⟩
  show HexToRGB ((r * 65536 + g * 256 + b : Nat) : Int) = _
  rw [HexToRGB_natCast]
  have e1 : (r * 65536 + g * 256 + b) / 65536 = r := by omega
  have e2 : (r * 65536 + g * 256 + b) / 256 % 256 = g := by omega
  have e3 : (r * 65536 + g * 256 + b) % 256 = b := by omega
  rw [e1, e2, e3]

/-- C2 at the triple `(10, 15, 20)`. -/
theorem C2_rgb_roundtrip_witness :
    (ParseInt (RGBToHex ⟨10, 15, 20⟩) 16 32).2 = none ∧
      HexToRGB (ParseInt (RGBToHex ⟨10, 15, 20⟩) 16 32).1 = ⟨10, 15, 20⟩ :=
  C2_rgb_roundtrip 10 15 20 (by decide) (by decide) (by decide)

/-- C3: for every non-negative integer `h`, `HexToRGB h` has red `h >> 16`,
that is `h / 65536` rounded down, green `(h >> 8) & 0xFF`, that is
`h / 256` rounded down, modulo 256, and blue `h & 0xFF`, that is `h mod 256`;
in particular `HexToRGB 0xAABBCC = (170, 187, 204)`. -/
theorem C3_HexToRGB_components (h : Int) (h0 : 0 ≤ h) :
    (HexToRGB h).red = h >>> (16 : Nat) ∧
      (HexToRGB h).red = ((h.toNat / 65536 : Nat) : Int) ∧
      (HexToRGB h).green = Int.land (h >>> (8 : Nat)) 0xFF ∧
      (HexToRGB h).green = ((h.toNat / 256 % 256 : Nat) : Int) ∧
      (HexToRGB h).blue = Int.land h 0xFF ∧
      (HexToRGB h).blue = ((h.toNat % 256 : Nat) : Int) ∧
      HexToRGB 0xAABBCC = ⟨170, 187, 204⟩ := by
  obtain ⟨n, rfl⟩ := Int.eq_ofNat_of_zero_le h0
  refine ⟨rfl, ?_, rfl, ?_, rfl, ?_, by decide⟩ <;>
    rw [HexToRGB_natCast, Int.toNat_ofNat]

/-- C3 at `h = 0x0A0F14`. -/
theorem C3_HexToRGB_components_witness :
    (HexToRGB 0x0A0F14).red = (0x0A0F14 : Int) >>> (16 : Nat) ∧
      (HexToRGB 0x0A0F14).red = ((Int.toNat 0x0A0F14 / 65536 : Nat) : Int) ∧
      (HexToRGB 0x0A0F14).green = Int.land ((0x0A0F14 : Int) >>> (8 : Nat)) 0xFF ∧
      (HexToRGB 0x0A0F14).green = ((Int.toNat 0x0A0F14 / 256 % 256 : Nat) : Int) ∧
      (HexToRGB 0x0A0F14).blue = Int.land 0x0A0F14 0xFF ∧
      (HexToRGB 0x0A0F14).blue = ((Int.toNat 0x0A0F14 % 256 : Nat) : Int) ∧
      HexToRGB 0xAABBCC = ⟨170, 187, 204⟩ :=
  C3_HexToRGB_components 0x0A0F14 (by decide)

/-- With exactly three fields `Set` returns no error and stores what the three
`ParseInt` calls return. -/
theorem Set_three_fields (v : rgbval) (s : GoString) (h3 : (Split s ',').length = 3) :
    rgbval.Set v s =
      (⟨(ParseInt ((Split s ',').getD 0 []) 0 64).1, (ParseInt ((Split s ',').getD 1 []) 0 64).1,
        (ParseInt ((Split s ',').getD 2 []) 0 64).1⟩, none) := by
  unfold rgbval.Set
  simp [h3]

theorem digitChar_mem_hex (d : Nat) (hd : d < 16) :
    Nat.digitChar d ∈ "0123456789abcdef".toList := by
  interval_cases d <;> decide

/-- C4: for every triple `(r, g, b)` with each component in `[0, 255]`,
`RGBToHex` returns a string of exactly 6 characters, all drawn from `0-9` and
`a-f`, that is the 2-digit zero-padded lowercase hexadecimal numeral of `r`,
then of `g`, then of `b`; in particular `RGBToHex (10, 15, 20) = "0a0f14"`. -/
theorem C4_RGBToHex_bytes (r g b : Int) (hr : 0 ≤ r ∧ r ≤ 255) (hg : 0 ≤ g ∧ g ≤ 255)
    (hb : 0 ≤ b ∧ b ≤ 255) :
    RGBToHex ⟨r, g, b⟩ = hexPadded 2 r.toNat ++ hexPadded 2 g.toNat ++ hexPadded 2 b.toNat ∧
      (RGBToHex ⟨r, g, b⟩).length = 6 ∧
      (∀ c ∈ RGBToHex ⟨r, g, b⟩, c ∈ "0123456789abcdef".toList) ∧
      RGBToHex ⟨10, 15, 20⟩ = "0a0f14".toList := by
  obtain ⟨r, rfl⟩ := Int.eq_ofNat_of_zero_le hr.1
  obtain ⟨g, rfl⟩ := Int.eq_ofNat_of_zero_le hg.1
  obtain ⟨b, rfl⟩ := Int.eq_ofNat_of_zero_le hb.1
  have hr2 : r < 256 := by omega
  have hg2 : g < 256 := by omega
  have hb2 : b < 256 := by omega
  have e := RGBToHex_bytes r g b hr2 hg2 hb2
  simp only [Int.toNat_ofNat]
  refine ⟨e, ?_, ?_, by decide⟩
  · rw [e, hexPadded_two r hr2, hexPadded_two g hg2, hexPadded_two b hb2]; rfl
  · rw [e, hexPadded_two r hr2, hexPadded_two g hg2, hexPadded_two b hb2]
    intro c hc
    simp only [List.cons_append, List.nil_append, List.mem_cons, List.mem_singleton,
      List.not_mem_nil, or_false] at hc
    rcases hc with rfl | rfl | rfl | rfl | rfl | rfl <;>
      exact digitChar_mem_hex _ (by omega)

/-- C4 at the triple `(255, 0, 171)`. -/
theorem C4_RGBToHex_bytes_witness :
    RGBToHex ⟨255, 0, 171⟩ =
        hexPadded 2 (Int.toNat 255) ++ hexPadded 2 (Int.toNat 0) ++ hexPadded 2 (Int.toNat 171) ∧
      (RGBToHex ⟨255, 0, 171⟩).length = 6 ∧
      (∀ c ∈ RGBToHex ⟨255, 0, 171⟩, c ∈ "0123456789abcdef".toList) ∧
      RGBToHex ⟨10, 15, 20⟩ = "0a0f14".toList :=
  C4_RGBToHex_bytes 255 0 171 (by decide) (by decide) (by decide)

/-- C5: for every string `s`, `rgbval.Set s` returns an error if and only if
splitting `s` on `,` does not yield exactly three fields, that is if and only
if `s` does not contain exactly two commas; in particular `Set "1,2"` and
`Set ""` fail. -/
theorem C5_Set_error_iff (v : rgbval) (s : GoString) :
    ((rgbval.Set v s).2 ≠ none ↔ (Split s ',').length ≠ 3) ∧
      ((Split s ',').length ≠ 3 ↔ s.count ',' ≠ 2) ∧
      (rgbval.Set v "1,2".toList).2 ≠ none ∧ (rgbval.Set v "".toList).2 ≠ none := by
  have key : ∀ t : GoString, ((rgbval.Set v t).2 ≠ none ↔ (Split t ',').length ≠ 3) := by
    intro t
    unfold rgbval.Set
    by_cases h : (Split t ',').length = 3 <;> simp [h]
  refine ⟨key s, ?_, (key _).mpr (by decide), (key _).mpr (by decide)⟩
  rw [Split_length]; omega

theorem decimalNumeral_no_comma (n : Int) : ',' ∉ decimalNumeral n := by
  have hd : ∀ m : Nat, ',' ∉ Nat.toDigits 10 m := by
    intro m hm
    obtain ⟨d, hd, hc⟩ := toDigits_mem 10 (by norm_num) m _ hm
    exact (digitChar_facts d (by omega)).2.2.2.2.1 hc.symm
  cases n with
  | ofNat m => exact hd m
  | negSucc m =>
    intro h
    simp only [decimalNumeral, List.mem_cons] at h
    rcases h with h | h
    · exact absurd h (by decide)
    · exact hd _ h

/-- C6: for all integers `r`, `g`, `b` in the signed 64-bit range,
`rgbval.Set` applied to their canonical decimal numerals joined by `,`
succeeds and leaves the receiver equal to `(r, g, b)`; in particular
`Set "10,20,30"` yields `(10, 20, 30)`. -/
theorem C6_Set_decimal (v : rgbval) (r g b : Int)
    (hr : -2 ^ 63 ≤ r ∧ r < 2 ^ 63) (hg : -2 ^ 63 ≤ g ∧ g < 2 ^ 63)
    (hb : -2 ^ 63 ≤ b ∧ b < 2 ^ 63) :
    rgbval.Set v (decimalNumeral r ++ ',' :: (decimalNumeral g ++ ',' :: decimalNumeral b)) =
        (⟨r, g, b⟩, none) ∧
      rgbval.Set v "10,20,30".toList = (⟨10, 20, 30⟩, none) := by
  constructor
  · have hs : Split (decimalNumeral r ++ ',' :: (decimalNumeral g ++ ',' :: decimalNumeral b)) ','
        = [decimalNumeral r, decimalNumeral g, decimalNumeral b] := by
      rw [Split_append_sep _ _ _ (decimalNumeral_no_comma r),
        Split_append_sep _ _ _ (decimalNumeral_no_comma g),
        Split_of_not_mem _ _ (decimalNumeral_no_comma b)]
    unfold rgbval.Set
    simp only [hs]
    simp [ParseInt_decimal r hr.1 hr.2, ParseInt_decimal g hg.1 hg.2,
      ParseInt_decimal b hb.1 hb.2]
  · rw [Set_three_fields v _ (by decide)]
    decide

/-- C6 at the triple `(-9223372036854775808, 0, 9223372036854775807)`. -/
theorem C6_Set_decimal_witness :
    rgbval.Set rgbflagZero (decimalNumeral (-9223372036854775808) ++
        ',' :: (decimalNumeral 0 ++ ',' :: decimalNumeral 9223372036854775807)) =
        (⟨-9223372036854775808, 0, 9223372036854775807⟩, none) ∧
      rgbval.Set rgbflagZero "10,20,30".toList = (⟨10, 20, 30⟩, none) :=
  C6_Set_decimal rgbflagZero (-9223372036854775808) 0 9223372036854775807
    (by decide) (by decide) (by decide)
/-! ## The branches of the driver -/

/-- With `-hex` alone and a non-empty value, `main` parses it and prints the triple or the error. -/
theorem main_hex (s : GoString) (hs : s ≠ []) :
    main (some s) none =
      match ParseInt s 16 32 with
      | (_, some err) => (.numError err, 1)
      | (hexVal, none) => (Println (HexToRGB hexVal).String, 0) := by
  unfold main
  dsimp only [Option.getD, Option.isSome]
  rw [if_neg (by decide), if_pos hs]

/-- With `-rgb` alone and a value that `Set` accepts, `main` prints the hexadecimal string. -/
theorem main_rgb (r : GoString) (x : rgbval) (hset : rgbval.Set rgbflagZero r = (x, none)) :
    main none (some r) = (Println (RGBToHex x), 0) := by
  unfold main
  dsimp only [Option.getD, Option.isSome]
  rw [hset]
  dsimp only
  rw [if_neg (by decide), if_neg (by simp)]

/-- With both flags and an `-rgb` value that `Set` accepts, `main` prints the usage. -/
theorem main_both (h r : GoString) (x : rgbval) (hset : rgbval.Set rgbflagZero r = (x, none)) :
    main (some h) (some r) = (Println usage, 1) := by
  unfold main
  dsimp only [Option.getD, Option.isSome]
  rw [hset]
  dsimp only
  rw [if_pos (by decide)]

/-- An `-rgb` value that `Set` rejects ends the run in `flag.Parse`, with status 2. -/
theorem main_rgb_rejected (hexArg : Option GoString) (r : GoString) (x : rgbval) (msg : String)
    (hset : rgbval.Set rgbflagZero r = (x, some msg)) :
    main hexArg (some r) = (.flagFailure r msg, 2) := by
  unfold main
  dsimp only
  rw [hset]

/-- C7, as stated, fails: in `99999999999999999999,0,0` the first of the three
fields makes `ParseInt` report a failure (out of range), and the red component
is `9223372036854775807`, not 0. -/
theorem C7_counterexample :
    (Split "99999999999999999999,0,0".toList ',').length = 3 ∧
      (ParseInt ((Split "99999999999999999999,0,0".toList ',').getD 0 []) 0 64).2 ≠ none ∧
      (rgbval.Set rgbflagZero "99999999999999999999,0,0".toList).1.red = 9223372036854775807 ∧
      (rgbval.Set rgbflagZero "99999999999999999999,0,0".toList).1.red ≠ 0 := by
  decide

/-- C7, amended: for every input string with exactly three comma-separated
fields, `rgbval.Set` returns no error; a field on which `ParseInt` (base 0, bit
size 64) reports a syntax failure yields 0 in the corresponding component, and
a field on which it reports a range failure yields the nearest bound of the
signed 64-bit range: `-2^63` when the field starts with a minus sign,
`2^63 - 1` otherwise; for instance `x,-99999999999999999999,99999999999999999999`
yields `(0, -2^63, 2^63 - 1)`. -/
theorem C7_Set_field_failure (v : rgbval) (s : GoString) (h3 : (Split s ',').length = 3) :
    (rgbval.Set v s).2 = none ∧
      (∀ e, (ParseInt ((Split s ',').getD 0 []) 0 64).2 = some e →
        (e.Err = .ErrSyntax ∧ (rgbval.Set v s).1.red = 0) ∨
        (e.Err = .ErrRange ∧
          ((((Split s ',').getD 0 []).head? ≠ some '-' ∧ (rgbval.Set v s).1.red = 2 ^ 63 - 1) ∨
            (((Split s ',').getD 0 []).head? = some '-' ∧ (rgbval.Set v s).1.red = -2 ^ 63)))) ∧
      (∀ e, (ParseInt ((Split s ',').getD 1 []) 0 64).2 = some e →
        (e.Err = .ErrSyntax ∧ (rgbval.Set v s).1.green = 0) ∨
        (e.Err = .ErrRange ∧
          ((((Split s ',').getD 1 []).head? ≠ some '-' ∧ (rgbval.Set v s).1.green = 2 ^ 63 - 1) ∨
            (((Split s ',').getD 1 []).head? = some '-' ∧ (rgbval.Set v s).1.green = -2 ^ 63)))) ∧
      (∀ e, (ParseInt ((Split s ',').getD 2 []) 0 64).2 = some e →
        (e.Err = .ErrSyntax ∧ (rgbval.Set v s).1.blue = 0) ∨
        (e.Err = .ErrRange ∧
          ((((Split s ',').getD 2 []).head? ≠ some '-' ∧ (rgbval.Set v s).1.blue = 2 ^ 63 - 1) ∨
            (((Split s ',').getD 2 []).head? = some '-' ∧ (rgbval.Set v s).1.blue = -2 ^ 63)))) ∧
      rgbval.Set rgbflagZero "x,-99999999999999999999,99999999999999999999".toList =
        (⟨0, -9223372036854775808, 9223372036854775807⟩, none) := by
  rw [Set_three_fields v s h3]
  refine ⟨rfl, ?_, ?_, ?_, by decide⟩ <;>
  · intro e he
    exact ParseInt_error_value _ _ e (Prod.ext rfl he)

/-- C7 amended, at `0x1G,-99999999999999999999,7`. -/
theorem C7_Set_field_failure_witness :
    (rgbval.Set rgbflagZero "0x1G,-99999999999999999999,7".toList).2 = none ∧
      (∀ e, (ParseInt ((Split "0x1G,-99999999999999999999,7".toList ',').getD 0 []) 0 64).2 = some e →
        (e.Err = .ErrSyntax ∧ (rgbval.Set rgbflagZero "0x1G,-99999999999999999999,7".toList).1.red = 0) ∨
        (e.Err = .ErrRange ∧
          ((((Split "0x1G,-99999999999999999999,7".toList ',').getD 0 []).head? ≠ some '-' ∧ (rgbval.Set rgbflagZero "0x1G,-99999999999999999999,7".toList).1.red = 2 ^ 63 - 1) ∨
            (((Split "0x1G,-99999999999999999999,7".toList ',').getD 0 []).head? = some '-' ∧ (rgbval.Set rgbflagZero "0x1G,-99999999999999999999,7".toList).1.red = -2 ^ 63)))) ∧
      (∀ e, (ParseInt ((Split "0x1G,-99999999999999999999,7".toList ',').getD 1 []) 0 64).2 = some e →
        (e.Err = .ErrSyntax ∧ (rgbval.Set rgbflagZero "0x1G,-99999999999999999999,7".toList).1.green = 0) ∨
        (e.Err = .ErrRange ∧
          ((((Split "0x1G,-99999999999999999999,7".toList ',').getD 1 []).head? ≠ some '-' ∧ (rgbval.Set rgbflagZero "0x1G,-99999999999999999999,7".toList).1.green = 2 ^ 63 - 1) ∨
            (((Split "0x1G,-99999999999999999999,7".toList ',').getD 1 []).head? = some '-' ∧ (rgbval.Set rgbflagZero "0x1G,-99999999999999999999,7".toList).1.green = -2 ^ 63)))) ∧
      (∀ e, (ParseInt ((Split "0x1G,-99999999999999999999,7".toList ',').getD 2 []) 0 64).2 = some e →
        (e.Err = .ErrSyntax ∧ (rgbval.Set rgbflagZero "0x1G,-99999999999999999999,7".toList).1.blue = 0) ∨
        (e.Err = .ErrRange ∧
          ((((Split "0x1G,-99999999999999999999,7".toList ',').getD 2 []).head? ≠ some '-' ∧ (rgbval.Set rgbflagZero "0x1G,-99999999999999999999,7".toList).1.blue = 2 ^ 63 - 1) ∨
            (((Split "0x1G,-99999999999999999999,7".toList ',').getD 2 []).head? = some '-' ∧ (rgbval.Set rgbflagZero "0x1G,-99999999999999999999,7".toList).1.blue = -2 ^ 63)))) ∧
      rgbval.Set rgbflagZero "x,-99999999999999999999,99999999999999999999".toList =
        (⟨0, -9223372036854775808, 9223372036854775807⟩, none) :=
  C7_Set_field_failure rgbflagZero "0x1G,-99999999999999999999,7".toList (by decide)

/-- C8: when neither flag is supplied, and when both flags are supplied (the
`-rgb` value having three fields), the driver prints the usage message and
exits with status 1, performing no conversion, whatever the flag values are. -/
theorem C8_usage (h r : GoString) (h3 : (Split r ',').length = 3) :
    main none none = (Println usage, 1) ∧ main (some h) (some r) = (Println usage, 1) := by
  exact ⟨by decide, main_both h r _ (Set_three_fields rgbflagZero r h3)⟩

/-- C8 at `-hex=zz -rgb=1,2,3`. -/
theorem C8_usage_witness :
    main none none = (Println usage, 1) ∧
      main (some "zz".toList) (some "1,2,3".toList) = (Println usage, 1) :=
  C8_usage "zz".toList "1,2,3".toList (by decide)

/-- C10: for every string `s` with exactly three comma-separated fields, when
exactly the `-rgb` flag is supplied with value `s` the driver prints
`RGBToHex` of the triple produced by `rgbval.Set s` and exits with status 0. -/
theorem C10_rgb_driver (s : GoString) (h3 : (Split s ',').length = 3) :
    main none (some s) = (Println (RGBToHex (rgbval.Set rgbflagZero s).1), 0) := by
  rw [Set_three_fields rgbflagZero s h3]
  exact main_rgb s _ (Set_three_fields rgbflagZero s h3)

/-- C10 at `-rgb=10,15,20`. -/
theorem C10_rgb_driver_witness :
    main none (some "10,15,20".toList) =
      (Println (RGBToHex (rgbval.Set rgbflagZero "10,15,20".toList).1), 0) :=
  C10_rgb_driver "10,15,20".toList (by decide)
/-- With a field count other than three `Set` returns its error and leaves the receiver alone. -/
theorem Set_not_three_fields (v : rgbval) (s : GoString) (h3 : (Split s ',').length ≠ 3) :
    rgbval.Set v s =
      (v, some "Invalid value for flag rgb. Flag value should be in r,g,b format") := by
  unfold rgbval.Set
  simp only [h3, ne_eq, not_false_eq_true, if_true]

/-- C11, as stated, fails: `1,2` does not split into three fields, and with
`-rgb=1,2` the run ends with exit status 2, not 1. -/
theorem C11_counterexample :
    (Split "1,2".toList ',').length ≠ 3 ∧ (main none (some "1,2".toList)).2 = 2 ∧
      (main none (some "1,2".toList)).2 ≠ 1 := by
  decide

/-- C11, amended: for every `-rgb` value that does not split into exactly
three comma-separated fields, whether or not `-hex` is supplied as well, the
program reports the format error (through the `flag` package) and terminates
with exit status 2, without printing a conversion result. -/
theorem C11_rgb_format_error (hexArg : Option GoString) (r : GoString)
    (h3 : (Split r ',').length ≠ 3) :
    main hexArg (some r) =
      (.flagFailure r "Invalid value for flag rgb. Flag value should be in r,g,b format", 2) :=
  main_rgb_rejected hexArg r _ _ (Set_not_three_fields rgbflagZero r h3)

/-- C11 amended, at `-rgb=1,2,3,4`. -/
theorem C11_rgb_format_error_witness :
    main none (some "1,2,3,4".toList) =
      (.flagFailure "1,2,3,4".toList
        "Invalid value for flag rgb. Flag value should be in r,g,b format", 2) :=
  C11_rgb_format_error none "1,2,3,4".toList (by decide)

/-- C12, as stated, fails: `ParseInt` accepts `1000000` (base 16, bit size 32),
and the red component of `HexToRGB` of the parsed value is 256. -/
theorem C12_counterexample :
    (ParseInt "1000000".toList 16 32).2 = none ∧
      (HexToRGB (ParseInt "1000000".toList 16 32).1).red = 256 ∧
      ¬ (HexToRGB (ParseInt "1000000".toList 16 32).1).red ≤ 255 := by
  decide

/-- C12, amended: for every `-hex` value that `ParseInt` (base 16, bit size 32)
accepts, the green and blue components of `HexToRGB` of the parsed value are in
`[0, 255]`, and the red component is in `[-32768, 32767]`; it is in `[0, 255]`
exactly when the parsed value is in `[0, 0xFFFFFF]`. -/
theorem C12_hex_components (s : GoString) (v : Int) (h : ParseInt s 16 32 = (v, none)) :
    (0 ≤ (HexToRGB v).green ∧ (HexToRGB v).green ≤ 255) ∧
      (0 ≤ (HexToRGB v).blue ∧ (HexToRGB v).blue ≤ 255) ∧
      (-32768 ≤ (HexToRGB v).red ∧ (HexToRGB v).red ≤ 32767) ∧
      ((0 ≤ (HexToRGB v).red ∧ (HexToRGB v).red ≤ 255) ↔ (0 ≤ v ∧ v ≤ 0xFFFFFF)) := by
  obtain ⟨h1, h2⟩ := ParseInt_ok32 s 16 v h
  rw [HexToRGB_eq]
  norm_num at h1 h2 ⊢
  omega

/-- C12 amended, at `-hex=-80000000`. -/
theorem C12_hex_components_witness :
    (0 ≤ (HexToRGB (-2147483648)).green ∧ (HexToRGB (-2147483648)).green ≤ 255) ∧
      (0 ≤ (HexToRGB (-2147483648)).blue ∧ (HexToRGB (-2147483648)).blue ≤ 255) ∧
      (-32768 ≤ (HexToRGB (-2147483648)).red ∧ (HexToRGB (-2147483648)).red ≤ 32767) ∧
      ((0 ≤ (HexToRGB (-2147483648)).red ∧ (HexToRGB (-2147483648)).red ≤ 255) ↔
        ((0 : Int) ≤ -2147483648 ∧ (-2147483648 : Int) ≤ 0xFFFFFF)) :=
  C12_hex_components "-80000000".toList (-2147483648) (by decide)
/-- C14: for every signed 64-bit integer `h`, negative values and values above
`0xFFFFFF` included, the green and blue components of `HexToRGB h` lie in
`[0, 255]`, while red is not masked (it ranges over `[-2^47, 2^47)`): for
non-negative `h`, red exceeds 255 if and only if `h ≥ 2^24`; for instance
`HexToRGB 0x1AABBCC` has red `0x1AA = 426`, green `0xBB`, blue `0xCC`. -/
theorem C14_red_not_masked (h : Int) (h1 : -2 ^ 63 ≤ h) (h2 : h < 2 ^ 63) :
    (0 ≤ (HexToRGB h).green ∧ (HexToRGB h).green ≤ 255) ∧
      (0 ≤ (HexToRGB h).blue ∧ (HexToRGB h).blue ≤ 255) ∧
      (-2 ^ 47 ≤ (HexToRGB h).red ∧ (HexToRGB h).red < 2 ^ 47) ∧
      (0 ≤ h → (255 < (HexToRGB h).red ↔ 2 ^ 24 ≤ h)) ∧
      HexToRGB 0x1AABBCC = ⟨426, 0xBB, 0xCC⟩ := by
  refine ⟨?_, ?_, ?_, ?_, by decide⟩ <;> rw [HexToRGB_eq] <;> norm_num at h1 h2 ⊢ <;> omega

/-- C14 at the smallest `int64`. -/
theorem C14_red_not_masked_witness :
    (0 ≤ (HexToRGB (-9223372036854775808)).green ∧
        (HexToRGB (-9223372036854775808)).green ≤ 255) ∧
      (0 ≤ (HexToRGB (-9223372036854775808)).blue ∧
        (HexToRGB (-9223372036854775808)).blue ≤ 255) ∧
      (-2 ^ 47 ≤ (HexToRGB (-9223372036854775808)).red ∧
        (HexToRGB (-9223372036854775808)).red < 2 ^ 47) ∧
      ((0 : Int) ≤ -9223372036854775808 →
        (255 < (HexToRGB (-9223372036854775808)).red ↔
          (2 : Int) ^ 24 ≤ -9223372036854775808)) ∧
      HexToRGB 0x1AABBCC = ⟨426, 0xBB, 0xCC⟩ :=
  C14_red_not_masked (-9223372036854775808) (by decide) (by decide)

/-- C17: on the documented example `(10, 15, 20)` the function returns
`0a0f14`, in lowercase, which is not the string `0A0F14` of the comment. -/
theorem C17_RGBToHex_example :
    RGBToHex ⟨10, 15, 20⟩ = "0a0f14".toList ∧ RGBToHex ⟨10, 15, 20⟩ ≠ "0A0F14".toList := by
  decide

/-- C18: `HexToRGB` loses no information: for every integer `h`, in
particular every signed 64-bit one, the triple satisfies
`red * 65536 + green * 256 + blue = h`, so `HexToRGB` is injective. -/
theorem C18_HexToRGB_injective (h : Int) :
    (HexToRGB h).red * 65536 + (HexToRGB h).green * 256 + (HexToRGB h).blue = h ∧
      ∀ h2 : Int, HexToRGB h = HexToRGB h2 → h = h2 := by
  have key : ∀ x : Int,
      (HexToRGB x).red * 65536 + (HexToRGB x).green * 256 + (HexToRGB x).blue = x := by
    intro x; rw [HexToRGB_eq]; dsimp only; omega
  refine ⟨key h, ?_⟩
  intro h2 e
  rw [← key h, ← key h2, e]

/-- C19: `rgbval.Set` is atomic on failure and state-independent on success:
for every prior receiver `v` and every string `s`, if `Set s` returns an error
the receiver still equals `v`, and if it succeeds the resulting receiver is the
same for every prior receiver (all three components are overwritten). -/
theorem C19_Set_atomic (v : rgbval) (s : GoString) :
    ((rgbval.Set v s).2 ≠ none → (rgbval.Set v s).1 = v) ∧
      ((rgbval.Set v s).2 = none → ∀ w : rgbval, rgbval.Set w s = rgbval.Set v s) := by
  by_cases h3 : (Split s ',').length = 3
  · constructor
    · intro hne
      rw [Set_three_fields v s h3] at hne
      exact absurd rfl hne
    · intro _ w
      rw [Set_three_fields v s h3, Set_three_fields w s h3]
  · constructor
    · intro _
      rw [Set_not_three_fields v s h3]
    · intro he
      rw [Set_not_three_fields v s h3] at he
      exact absurd he (by simp)
/-! ## The width of `RGBToHex` -/

theorem toDigits_length_ge (b : Nat) (hb : 2 ≤ b) (k : Nat) :
    ∀ n, b ^ k ≤ n → k + 1 ≤ (Nat.toDigits b n).length := by
  induction k with
  | zero =>
    intro n _
    by_cases h : n < b
    · rw [toDigits_lt b n h]; simp
    · rw [toDigits_ge b n hb (by omega)]; simp
  | succ k ih =>
    intro n hn
    have hbn : b ≤ n := by
      have : b ^ 1 ≤ b ^ (k + 1) := Nat.pow_le_pow_right (by omega) (by omega)
      rw [pow_one] at this; omega
    have hq : b ^ k ≤ n / b := by
      rw [Nat.le_div_iff_mul_le (by omega)]
      rw [pow_succ] at hn; exact hn
    rw [toDigits_ge b n hb hbn]
    have := ih (n / b) hq
    simp; omega

theorem hexPadded_length (w n : Nat) :
    (hexPadded w n).length = max w (Nat.toDigits 16 n).length := by
  simp only [hexPadded, List.leftpad, List.length_append, List.length_replicate]
  omega

/-- The width of one `%02x` field: two characters up to 255, more above. -/
theorem hexPadded_two_length (n : Nat) :
    2 ≤ (hexPadded 2 n).length ∧ ((hexPadded 2 n).length = 2 ↔ n ≤ 255) ∧
      (255 < n → hexPadded 2 n = Nat.toDigits 16 n) := by
  rw [hexPadded_length]
  by_cases h : n < 256
  · have h1 := toDigits_length_le 16 (by norm_num) 1 n (by norm_num; omega)
    refine ⟨by omega, ⟨fun _ => by omega, fun _ => by omega⟩, fun h2 => by omega⟩
  · have h1 := toDigits_length_ge 16 (by norm_num) 2 n (by norm_num; omega)
    refine ⟨by omega, ⟨fun h2 => by omega, fun h2 => by omega⟩, fun _ => ?_⟩
    simp only [hexPadded, List.leftpad]
    rw [Nat.sub_eq_zero_of_le (by omega)]
    rfl

/-- The hexadecimal string of a triple of non-negative components. -/
theorem RGBToHex_nonneg (r g b : Nat) (hr : r < 2 ^ 63) (hg : g < 2 ^ 63) (hb : b < 2 ^ 63) :
    RGBToHex ⟨(r : Int), (g : Int), (b : Int)⟩ = hexPadded 2 r ++ hexPadded 2 g ++ hexPadded 2 b := by
  rw [RGBToHex_def]
  simp only [fmt02x_nonneg r hr, fmt02x_nonneg g hg, fmt02x_nonneg b hb]

/-- C15: for every triple of non-negative `int64` components, the string
returned by `RGBToHex` has length at least 6, and its length is exactly 6 if
and only if all three components are at most 255; whenever some component
needs more than 2 hexadecimal digits the output is longer than 6 characters,
and nothing is truncated: the string is made of the three numerals, each in
full (a component above 255 contributes exactly its hexadecimal numeral). -/
theorem C15_RGBToHex_length (r g b : Int) (hr : 0 ≤ r ∧ r < 2 ^ 63) (hg : 0 ≤ g ∧ g < 2 ^ 63)
    (hb : 0 ≤ b ∧ b < 2 ^ 63) :
    6 ≤ (RGBToHex ⟨r, g, b⟩).length ∧
      ((RGBToHex ⟨r, g, b⟩).length = 6 ↔ (r ≤ 255 ∧ g ≤ 255 ∧ b ≤ 255)) ∧
      ((255 < r ∨ 255 < g ∨ 255 < b) → 6 < (RGBToHex ⟨r, g, b⟩).length) ∧
      RGBToHex ⟨r, g, b⟩ = hexPadded 2 r.toNat ++ hexPadded 2 g.toNat ++ hexPadded 2 b.toNat ∧
      (255 < r → hexPadded 2 r.toNat = Nat.toDigits 16 r.toNat) ∧
      (255 < g → hexPadded 2 g.toNat = Nat.toDigits 16 g.toNat) ∧
      (255 < b → hexPadded 2 b.toNat = Nat.toDigits 16 b.toNat) := by
  obtain ⟨r, rfl⟩ := Int.eq_ofNat_of_zero_le hr.1
  obtain ⟨g, rfl⟩ := Int.eq_ofNat_of_zero_le hg.1
  obtain ⟨b, rfl⟩ := Int.eq_ofNat_of_zero_le hb.1
  have e := RGBToHex_nonneg r g b (by exact_mod_cast hr.2) (by exact_mod_cast hg.2)
    (by exact_mod_cast hb.2)
  obtain ⟨r1, r2, r3⟩ := hexPadded_two_length r
  obtain ⟨g1, g2, g3⟩ := hexPadded_two_length g
  obtain ⟨b1, b2, b3⟩ := hexPadded_two_length b
  simp only [Int.toNat_ofNat]
  rw [e]
  simp only [List.length_append]
  refine ⟨by omega, ⟨fun h => ?_, fun h => ?_⟩, fun h => ?_, trivial, fun h => r3 (by omega),
    fun h => g3 (by omega), fun h => b3 (by omega)⟩
  · have hr2 : (hexPadded 2 r).length = 2 := by omega
    have hg2 : (hexPadded 2 g).length = 2 := by omega
    have hb2 : (hexPadded 2 b).length = 2 := by omega
    have := r2.mp hr2; have := g2.mp hg2; have := b2.mp hb2
    omega
  · have := r2.mpr (by omega); have := g2.mpr (by omega); have := b2.mpr (by omega)
    omega
  · have hne : ¬ (r ≤ 255 ∧ g ≤ 255 ∧ b ≤ 255) := by omega
    by_contra hc
    have h6 : (hexPadded 2 r).length + (hexPadded 2 g).length + (hexPadded 2 b).length = 6 := by
      omega
    have hr2 : (hexPadded 2 r).length = 2 := by omega
    have hg2 : (hexPadded 2 g).length = 2 := by omega
    have hb2 : (hexPadded 2 b).length = 2 := by omega
    have := r2.mp hr2; have := g2.mp hg2; have := b2.mp hb2
    omega

/-- C15 at the triple `(256, 0, 4095)`. -/
theorem C15_RGBToHex_length_witness :
    6 ≤ (RGBToHex ⟨256, 0, 4095⟩).length ∧
      ((RGBToHex ⟨256, 0, 4095⟩).length = 6 ↔
        ((256 : Int) ≤ 255 ∧ (0 : Int) ≤ 255 ∧ (4095 : Int) ≤ 255)) ∧
      (((255 : Int) < 256 ∨ (255 : Int) < 0 ∨ (255 : Int) < 4095) →
        6 < (RGBToHex ⟨256, 0, 4095⟩).length) ∧
      RGBToHex ⟨256, 0, 4095⟩ =
        hexPadded 2 (Int.toNat 256) ++ hexPadded 2 (Int.toNat 0) ++ hexPadded 2 (Int.toNat 4095) ∧
      ((255 : Int) < 256 → hexPadded 2 (Int.toNat 256) = Nat.toDigits 16 (Int.toNat 256)) ∧
      ((255 : Int) < 0 → hexPadded 2 (Int.toNat 0) = Nat.toDigits 16 (Int.toNat 0)) ∧
      ((255 : Int) < 4095 → hexPadded 2 (Int.toNat 4095) = Nat.toDigits 16 (Int.toNat 4095)) :=
  C15_RGBToHex_length 256 0 4095 (by decide) (by decide) (by decide)
/-! ## Hexadecimal numerals beyond 32 bits -/

/-- What `ParseUint` makes of a hexadecimal digit. -/
theorem hexDigit_facts (c : Char) (hc : hexDigitValue c < 16) :
    digitVal c = some (hexDigitValue c) ∧ c ≠ '_' ∧ c ≠ '+' ∧ c ≠ '-' := by
  have hmem : c ∈ "0123456789abcdef".toList ∨ c ∈ "0123456789ABCDEF".toList := by
    unfold hexDigitValue at hc
    by_contra hn
    push_neg at hn
    have h1 : "0123456789abcdef".toList.indexOf c = 16 := by
      have := List.indexOf_eq_length.mpr hn.1
      rw [this]; rfl
    have h2 : "0123456789ABCDEF".toList.indexOf c = 16 := by
      have := List.indexOf_eq_length.mpr hn.2
      rw [this]; rfl
    rw [h1, h2] at hc
    exact absurd hc (by decide)
  have low : ∀ x ∈ "0123456789abcdef".toList,
      digitVal x = some (hexDigitValue x) ∧ x ≠ '_' ∧ x ≠ '+' ∧ x ≠ '-' := by decide
  have up : ∀ x ∈ "0123456789ABCDEF".toList,
      digitVal x = some (hexDigitValue x) ∧ x ≠ '_' ∧ x ≠ '+' ∧ x ≠ '-' := by decide
  rcases hmem with h | h
  · exact low c h
  · exact up c h

theorem foldl_hex_ge (cs : GoString) :
    ∀ acc, acc ≤ cs.foldl (fun a c => a * 16 + hexDigitValue c) acc := by
  induction cs with
  | nil => intro acc; exact Nat.le_refl _
  | cons c cs ih =>
    intro acc
    have h1 : acc ≤ acc * 16 + hexDigitValue c := by omega
    exact Nat.le_trans h1 (ih _)

/-- On a run of hexadecimal digits the loop of `ParseUint` (base 16, bit size
32) returns the value of the run when it fits in 32 bits, and a range failure
when it does not. -/
theorem parseLoop_hex (cs : GoString) :
    ∀ acc : Nat, (∀ c ∈ cs, hexDigitValue c < 16) → acc ≤ 4294967295 →
      parseLoop 16 false 1152921504606846976 4294967295 cs acc false =
        if cs.foldl (fun a c => a * 16 + hexDigitValue c) acc ≤ 4294967295 then
          .ok (cs.foldl (fun a c => a * 16 + hexDigitValue c) acc, false)
        else .error (4294967295, .ErrRange) := by
  induction cs with
  | nil =>
    intro acc _ hacc
    simp only [parseLoop, List.foldl_nil, hacc, if_true]
  | cons c cs ih =>
    intro acc hcs hacc
    have hc : hexDigitValue c < 16 := hcs c (by simp)
    obtain ⟨hv, hu, -, -⟩ := hexDigit_facts c hc
    have h3 : ¬ acc ≥ 1152921504606846976 := by omega
    have h4 : ¬ hexDigitValue c ≥ 16 % 256 := by omega
    have h5 : acc * 16 % 2 ^ 64 = acc * 16 := Nat.mod_eq_of_lt (by norm_num; omega)
    have h6 : (acc * 16 + hexDigitValue c) % 2 ^ 64 = acc * 16 + hexDigitValue c :=
      Nat.mod_eq_of_lt (by norm_num; omega)
    have h7 : ¬ acc * 16 + hexDigitValue c < acc * 16 := by omega
    simp only [parseLoop, hu, false_and, if_false, hv, h3, h4, h5, h6, h7, false_or,
      List.foldl_cons]
    by_cases h8 : acc * 16 + hexDigitValue c > 4294967295
    · have hge := foldl_hex_ge cs (acc * 16 + hexDigitValue c)
      have h9 : ¬ cs.foldl (fun a c => a * 16 + hexDigitValue c) (acc * 16 + hexDigitValue c)
          ≤ 4294967295 := by omega
      simp only [h8, if_true, h9, if_false]
    · simp only [h8, if_false]
      exact ih _ (fun x hx => hcs x (by simp [hx])) (by omega)

/-- `ParseUint` with base 16 and bit size 32, past its argument checks. -/
theorem ParseUint_16_32 (s : GoString) (hs : s ≠ []) :
    ParseUint s 16 32 =
      match parseLoop 16 false 1152921504606846976 4294967295 s 0 false with
      | .error (v, e) => (v, some ⟨"ParseUint", s, e⟩)
      | .ok (n, underscores) =>
        if underscores = true ∧ underscoreOK s = false then
          (0, some ⟨"ParseUint", s, .ErrSyntax⟩)
        else (n, none) := by
  have hsel : selectBase s 16 = some (16, s) := by simp [selectBase]
  unfold ParseUint
  simp only [hs, if_false, hsel]
  rfl

/-- `ParseInt` on a string that does not start with a sign. -/
theorem ParseInt_no_sign (c : Char) (cs : GoString) (base bitSize : Nat)
    (hp : c ≠ '+') (hq : c ≠ '-') :
    ParseInt (c :: cs) base bitSize =
      match ParseUint (c :: cs) base bitSize with
      | (un, some e) =>
        if e.Err ≠ .ErrRange then (0, some ⟨"ParseInt", c :: cs, e.Err⟩)
        else parseIntFinish (c :: cs) false un bitSize
      | (un, none) => parseIntFinish (c :: cs) false un bitSize := by
  unfold ParseInt
  simp only [hp, hq, if_false, decide_False]

/-- A hexadecimal numeral above `0x7FFFFFFF` makes `ParseInt` (base 16, bit
size 32) report a range failure. -/
theorem ParseInt_hex_overflow (s : GoString) (hs : isHexNumeral s)
    (hv : 0x7FFFFFFF < hexNumeralValue s) :
    ParseInt s 16 32 = (2147483647, some ⟨"ParseInt", s, .ErrRange⟩) := by
  obtain ⟨hne, hds⟩ := hs
  cases s with
  | nil => exact absurd rfl hne
  | cons c cs =>
    obtain ⟨-, -, hp, hq⟩ := hexDigit_facts c (hds c (by simp))
    have hloop := parseLoop_hex (c :: cs) 0 hds (by omega)
    rw [ParseInt_no_sign c cs 16 32 hp hq, ParseUint_16_32 _ hne, hloop]
    unfold hexNumeralValue at hv
    by_cases hfit : (c :: cs).foldl (fun a c => a * 16 + hexDigitValue c) 0 ≤ 4294967295
    · simp only [hfit, if_true, Bool.false_eq_true, false_and, if_false]
      rw [parseIntFinish_32]
      rw [if_pos ⟨rfl, by omega⟩]
    · simp only [hfit, if_false, ne_eq, not_true_eq_false]
      rw [parseIntFinish_32]
      rw [if_pos ⟨rfl, by omega⟩]

/-- C16: the hex value is parsed as a signed 32-bit quantity: every `-hex`
string that `ParseInt` (base 16, bit size 32) accepts yields an integer in
`[-2^31, 2^31 - 1]`, and every hexadecimal numeral whose value exceeds
`0x7FFFFFFF`, such as `FFFFFFFF` or `100000000`, is rejected: the driver prints
the range error and exits with status 1 rather than converting. -/
theorem C16_signed_32bit (s : GoString) :
    (∀ v, ParseInt s 16 32 = (v, none) → -2 ^ 31 ≤ v ∧ v ≤ 2 ^ 31 - 1) ∧
      (isHexNumeral s → 0x7FFFFFFF < hexNumeralValue s →
        (ParseInt s 16 32).2 = some ⟨"ParseInt", s, .ErrRange⟩ ∧
          main (some s) none = (.numError ⟨"ParseInt", s, .ErrRange⟩, 1)) ∧
      main (some "FFFFFFFF".toList) none =
        (.numError ⟨"ParseInt", "FFFFFFFF".toList, .ErrRange⟩, 1) ∧
      main (some "100000000".toList) none =
        (.numError ⟨"ParseInt", "100000000".toList, .ErrRange⟩, 1) := by
  refine ⟨?_, ?_, by decide, by decide⟩
  · intro v h
    have := ParseInt_ok32 s 16 v h
    omega
  · intro hs hv
    have e := ParseInt_hex_overflow s hs hv
    refine ⟨by rw [e], ?_⟩
    rw [main_hex s hs.1, e]

/-- C16 at the numeral `80000000`. -/
theorem C16_signed_32bit_witness :
    (ParseInt "80000000".toList 16 32).2 = some ⟨"ParseInt", "80000000".toList, .ErrRange⟩ ∧
      main (some "80000000".toList) none =
        (.numError ⟨"ParseInt", "80000000".toList, .ErrRange⟩, 1) :=
  (C16_signed_32bit "80000000".toList).2.1 ⟨by decide, by decide⟩ (by decide)
/-! ## The case of the letters in the `-hex` value -/

/-- Upper-casing a character changes neither its digit value nor whether it is
an underscore or a sign. -/
theorem toUpper_facts (c : Char) :
    digitVal c.toUpper = digitVal c ∧ (c.toUpper = '_' ↔ c = '_') ∧
      (c.toUpper = '+' ↔ c = '+') ∧ (c.toUpper = '-' ↔ c = '-') := by
  by_cases h : c.toNat ≥ 97 ∧ c.toNat ≤ 122
  · have hc : c = Char.ofNat c.toNat := (Char.ofNat_toNat c).symm
    obtain ⟨h1, h2⟩ := h
    generalize c.toNat = n at hc h1 h2
    subst hc
    interval_cases n <;> decide
  · have e : c.toUpper = c := by
      unfold Char.toUpper
      simp only [h, if_false]
    rw [e]
    exact ⟨rfl, Iff.rfl, Iff.rfl, Iff.rfl⟩

/-- Lower-casing a character changes neither its digit value nor whether it is
an underscore or a sign. -/
theorem toLower_facts (c : Char) :
    digitVal c.toLower = digitVal c ∧ (c.toLower = '_' ↔ c = '_') ∧
      (c.toLower = '+' ↔ c = '+') ∧ (c.toLower = '-' ↔ c = '-') := by
  by_cases h : c.toNat ≥ 65 ∧ c.toNat ≤ 90
  · have hc : c = Char.ofNat c.toNat := (Char.ofNat_toNat c).symm
    obtain ⟨h1, h2⟩ := h
    generalize c.toNat = n at hc h1 h2
    subst hc
    interval_cases n <;> decide
  · have e : c.toLower = c := by
      unfold Char.toLower
      simp only [h, if_false]
    rw [e]
    exact ⟨rfl, Iff.rfl, Iff.rfl, Iff.rfl⟩

/-- The digit loop does not see a character map that keeps digit values and underscores. -/
theorem parseLoop_map (f : Char → Char)
    (hf : ∀ c, digitVal (f c) = digitVal c ∧ (f c = '_' ↔ c = '_') ∧
      (f c = '+' ↔ c = '+') ∧ (f c = '-' ↔ c = '-'))
    (base : Nat) (base0 : Bool) (cutoff maxVal : Nat) (s : GoString) :
    ∀ (n : Nat) (us : Bool),
      parseLoop base base0 cutoff maxVal (s.map f) n us =
        parseLoop base base0 cutoff maxVal s n us := by
  induction s with
  | nil => intro n us; rfl
  | cons c cs ih =>
    intro n us
    have h1 : (f c = '_') = (c = '_') := propext (hf c).2.1
    simp only [List.map_cons, parseLoop, h1, (hf c).1, ih]

/-- Without base detection the loop never reports an underscore. -/
theorem parseLoop_no_underscore (base : Nat) (cutoff maxVal : Nat) (s : GoString) :
    ∀ (n : Nat) (us : Bool) (m : Nat) (us2 : Bool),
      parseLoop base false cutoff maxVal s n us = .ok (m, us2) → us2 = us := by
  induction s with
  | nil =>
    intro n us m us2 h
    simp only [parseLoop, Except.ok.injEq, Prod.mk.injEq] at h
    exact h.2.symm
  | cons c cs ih =>
    intro n us m us2 h
    simp only [parseLoop, Bool.false_eq_true, and_false, if_false] at h
    split at h
    · simp at h
    · split_ifs at h
      exact ih _ _ _ _ h

/-- `ParseUint` (base 16, bit size 32) returns the same value and the same
reason on a string and on its image under such a character map. -/
theorem ParseUint_map (f : Char → Char)
    (hf : ∀ c, digitVal (f c) = digitVal c ∧ (f c = '_' ↔ c = '_') ∧
      (f c = '+' ↔ c = '+') ∧ (f c = '-' ↔ c = '-'))
    (s : GoString) :
    ParseUint (s.map f) 16 32 =
      ((ParseUint s 16 32).1,
        (ParseUint s 16 32).2.map (fun e => ⟨e.Func, s.map f, e.Err⟩)) := by
  cases s with
  | nil => rfl
  | cons c cs =>
    rw [ParseUint_16_32 (List.map f (c :: cs)) (by simp), ParseUint_16_32 (c :: cs) (by simp),
      parseLoop_map f hf]
    generalize hl : parseLoop 16 false 1152921504606846976 4294967295 (c :: cs) 0 false = res
    cases res with
    | error p => obtain ⟨v, e⟩ := p; rfl
    | ok p =>
      obtain ⟨m, us⟩ := p
      have hus := parseLoop_no_underscore _ _ _ _ _ _ _ _ hl
      subst hus
      simp only [Bool.false_eq_true, false_and, if_false, Option.map_none']

/-- The range check of `ParseInt` mentions the input only in the error it returns. -/
theorem parseIntFinish_32_num (s0 t0 : GoString) (neg : Bool) (un : Nat) :
    parseIntFinish t0 neg un 32 =
      ((parseIntFinish s0 neg un 32).1,
        (parseIntFinish s0 neg un 32).2.map (fun e => ⟨e.Func, t0, e.Err⟩)) := by
  rw [parseIntFinish_32, parseIntFinish_32]
  split_ifs <;> rfl

/-- `ParseInt` (base 16, bit size 32) returns the same value and the same
reason on a string and on its image under a character map that keeps digit
values, underscores and signs; only the input quoted in the error differs. -/
theorem ParseInt_map (f : Char → Char)
    (hf : ∀ c, digitVal (f c) = digitVal c ∧ (f c = '_' ↔ c = '_') ∧
      (f c = '+' ↔ c = '+') ∧ (f c = '-' ↔ c = '-'))
    (s : GoString) :
    ParseInt (s.map f) 16 32 =
      ((ParseInt s 16 32).1,
        (ParseInt s 16 32).2.map (fun e => ⟨e.Func, s.map f, e.Err⟩)) := by
  cases s with
  | nil => rfl
  | cons c cs =>
    have h1 : (f c = '+') = (c = '+') := propext (hf c).2.2.1
    have h2 : (f c = '-') = (c = '-') := propext (hf c).2.2.2
    have h3 : (if c = '+' then List.map f cs else if c = '-' then List.map f cs
        else f c :: List.map f cs) =
        List.map f (if c = '+' then cs else if c = '-' then cs else c :: cs) := by
      split_ifs <;> rfl
    unfold ParseInt
    simp only [List.map_cons, h1, h2, h3]
    rw [ParseUint_map f hf]
    generalize ParseUint (if c = '+' then cs else if c = '-' then cs else c :: cs) 16 32 = res
    obtain ⟨un, err⟩ := res
    cases err with
    | none =>
      simp only [Option.map_none']
      exact parseIntFinish_32_num (c :: cs) (f c :: List.map f cs) _ un
    | some e =>
      simp only [Option.map_some']
      by_cases hne : e.Err = .ErrRange
      · simp only [hne, ne_eq, not_true_eq_false, if_false]
        exact parseIntFinish_32_num (c :: cs) (f c :: List.map f cs) _ un
      · simp only [ne_eq, hne, not_false_eq_true, if_true, Option.map_some']

/-- The driver on a `-hex` value and on its image under a character map that
keeps digit values, underscores and signs: same exit status, same output when
the value is accepted, and otherwise the parse error with the same reason. -/
theorem main_hex_map (f : Char → Char)
    (hf : ∀ c, digitVal (f c) = digitVal c ∧ (f c = '_' ↔ c = '_') ∧
      (f c = '+' ↔ c = '+') ∧ (f c = '-' ↔ c = '-'))
    (s : GoString) :
    (main (some (s.map f)) none).2 = (main (some s) none).2 ∧
      ((ParseInt s 16 32).2 = none → main (some (s.map f)) none = main (some s) none) ∧
      (s ≠ [] → ∀ e, (ParseInt s 16 32).2 = some e →
        main (some s) none = (.numError e, 1) ∧
          main (some (s.map f)) none = (.numError ⟨e.Func, s.map f, e.Err⟩, 1)) := by
  cases s with
  | nil => exact ⟨rfl, fun _ => rfl, fun h => absurd rfl h⟩
  | cons c cs =>
    rw [main_hex (List.map f (c :: cs)) (by simp), main_hex (c :: cs) (by simp),
      ParseInt_map f hf]
    generalize ParseInt (c :: cs) 16 32 = res
    obtain ⟨v, err⟩ := res
    cases err with
    | none => exact ⟨rfl, fun _ => rfl, fun _ e he => by simp at he⟩
    | some e0 =>
      refine ⟨rfl, fun he => by simp at he, fun _ e he => ?_⟩
      simp only [Option.some.injEq] at he
      subst he
      exact ⟨rfl, rfl⟩

/-- C13, as stated, fails: `g` is rejected both in lower and in upper case, but
the error that is printed quotes the value, so the two outputs differ. -/
theorem C13_counterexample :
    "g".toList.map Char.toUpper = "G".toList ∧
      main (some ("g".toList.map Char.toUpper)) none ≠ main (some "g".toList) none := by
  decide

/-- C13, amended: for every string `s`, replacing `s` by its upper-cased or its
lower-cased form (the letters `a`-`z` and `A`-`Z` mapped, every other character
kept) leaves the exit status of the driver with exactly `-hex=s` unchanged;
when `s` is accepted the output is unchanged too (`aabbcc` and `AABBCC` both
print `RGB{R:170, G:187, B:204}`); when a non-empty `s` is rejected, the output
is in each case the parse error of the value supplied, with the same reason. -/
theorem C13_hex_case (s : GoString) :
    ((main (some (s.map Char.toUpper)) none).2 = (main (some s) none).2 ∧
      (main (some (s.map Char.toLower)) none).2 = (main (some s) none).2) ∧
      ((ParseInt s 16 32).2 = none →
        main (some (s.map Char.toUpper)) none = main (some s) none ∧
          main (some (s.map Char.toLower)) none = main (some s) none) ∧
      (s ≠ [] → ∀ e, (ParseInt s 16 32).2 = some e →
        main (some s) none = (.numError e, 1) ∧
          main (some (s.map Char.toUpper)) none =
            (.numError ⟨e.Func, s.map Char.toUpper, e.Err⟩, 1) ∧
          main (some (s.map Char.toLower)) none =
            (.numError ⟨e.Func, s.map Char.toLower, e.Err⟩, 1)) ∧
      main (some "aabbcc".toList) none = (Println "RGB\x7bR:170, G:187, B:204\x7d".toList, 0) ∧
      main (some "AABBCC".toList) none = (Println "RGB\x7bR:170, G:187, B:204\x7d".toList, 0) := by
  obtain ⟨u1, u2, u3⟩ := main_hex_map Char.toUpper toUpper_facts s
  obtain ⟨l1, l2, l3⟩ := main_hex_map Char.toLower toLower_facts s
  exact ⟨⟨u1, l1⟩, fun h => ⟨u2 h, l2 h⟩,
    fun hs e he => ⟨(u3 hs e he).1, (u3 hs e he).2, (l3 hs e he).2⟩, by decide, by decide⟩

end RgbHex
